import Mathlib

/-!
Verification of the BORME bulletin-entry segmentation and field-extraction
engine (scripts/borme_batch_parser.py) against its natural-language
specification.

The Python code is shallowly embedded: strings are `List Char` wrapped in
`String`, every Python string primitive used by the code (strip, upper,
endswith, rfind, split, ...) gets an executable Lean counterpart, and each
concrete regular expression of the source is hand-compiled to a deterministic
matcher that reproduces the backtracking behaviour of the Python `re` engine
on that particular pattern.  Modelling notes:

* `str.upper` and the accent tables are modelled over the alphabet the
  bulletins use (ASCII plus the accented Spanish letters); characters outside
  that alphabet are left unchanged.
* Python whitespace (`\s` over the relevant alphabet) is the ASCII whitespace
  set.
* `float` applied to the digits-and-dots strings produced by the capital
  converter is modelled exactly, with rational values (`mkRat`); IEEE
  rounding is outside the scope of this development.
-/

set_option maxRecDepth 10000
set_option maxHeartbeats 2000000

namespace Borme

/-- ASCII whitespace, the characters matched by a Python `\s` over the
bulletin alphabet and stripped by `str.strip()`. -/
def isWsCh (c : Char) : Bool :=
  c = ' ' || c = '\t' || c = '\n' || c = '\r' || c = '\x0b' || c = '\x0c'

/-- Decimal digit, the characters matched by `\d` on the bulletin alphabet. -/
def isDigitCh (c : Char) : Bool := '0' ≤ c && c ≤ '9'

/-- Lower-to-upper case table for the alphabet the bulletins use (a model of
`str.upper` restricted to ASCII letters plus accented Spanish letters). -/
def upperTable : List (Char × Char) :=
  [('a','A'),('b','B'),('c','C'),('d','D'),('e','E'),('f','F'),('g','G'),
   ('h','H'),('i','I'),('j','J'),('k','K'),('l','L'),('m','M'),('n','N'),
   ('o','O'),('p','P'),('q','Q'),('r','R'),('s','S'),('t','T'),('u','U'),
   ('v','V'),('w','W'),('x','X'),('y','Y'),('z','Z'),
   ('á','Á'),('é','É'),('í','Í'),('ó','Ó'),('ú','Ú'),('ñ','Ñ'),('ü','Ü'),
   ('à','À'),('è','È'),('ì','Ì'),('ò','Ò'),('ù','Ù'),('ç','Ç')]

/-- Association-list lookup over a character table. -/
def tblLookup (tbl : List (Char × Char)) (c : Char) : Option Char :=
  match tbl with
  | [] => none
  | (k, v) :: rest => if c = k then some v else tblLookup rest c

def upperChar (c : Char) : Char :=
  match tblLookup upperTable c with
  | some u => u
  | none => c

/-- Model of `str.upper` on the char-list representation. -/
def pyUpper (cs : List Char) : List Char := cs.map upperChar

def stripL (cs : List Char) : List Char := cs.dropWhile isWsCh

def stripR (cs : List Char) : List Char := cs.rdropWhile isWsCh

/-- Model of `str.strip()`. -/
def pyStrip (cs : List Char) : List Char := stripR (stripL cs)

/-- Model of `str.rstrip(chars)` / of the substitution `re.sub(set+$, '')`:
drop the maximal trailing run of characters from `chs`. -/
def dropTrailingAny (chs : List Char) (cs : List Char) : List Char :=
  cs.rdropWhile (fun c => chs.contains c)

/-- Model of `str.lstrip(chars)`. -/
def dropLeadingAny (chs : List Char) (cs : List Char) : List Char :=
  cs.dropWhile (fun c => chs.contains c)

/-- Model of `str.endswith`. -/
def endsWithL (cs suf : List Char) : Bool :=
  decide (suf.length ≤ cs.length) && decide (cs.drop (cs.length - suf.length) = suf)

/-- Model of `str.startswith` (and of anchoring a literal at a position). -/
def startsWithL (cs pre : List Char) : Bool :=
  decide (cs.take pre.length = pre)

/-- The literal `pat` occurs at offset `i` of `cs`. -/
def occursAtL (cs pat : List Char) (i : Nat) : Bool :=
  decide (i + pat.length ≤ cs.length) && startsWithL (cs.drop i) pat

-- ===================================================================
-- Name normalizer (extraction-time strength): `_normalize_empresa`
-- ===================================================================

/-- The ordered trailing legal-form suffix list of `_normalize_empresa`
(borme_batch_parser.py lines 200-210). -/
def LIGHT_SUFFIX_LIST : List String :=
  [" SOCIEDAD ANONIMA DEPORTIVA", " SOCIEDAD ANONIMA",
   " SOCIEDAD LIMITADA PROFESIONAL", " SOCIEDAD LIMITADA LABORAL",
   " SOCIEDAD LIMITADA NUEVA EMPRESA", " SOCIEDAD LIMITADA",
   " SOCIEDAD COOPERATIVA ANDALUZA", " SOCIEDAD COOPERATIVA",
   " SOCIEDAD CIVIL PROFESIONAL", " SOCIEDAD CIVIL",
   " AGRUPACION DE INTERES ECONOMICO",
   " SAU", " SLU", " SAD", " SLL", " SLP", " SLNE",
   " SA SME", " SA", " SL", " SC", " SCA", " SCCL", " SCOOP",
   " SE", " SRL", " AIE"]

/-- The suffix pass of `_normalize_empresa`: a single `for`-loop over the
fixed list that strips the first matching trailing suffix and `break`s. -/
def stripFirstSuffix (sufs : List String) (n : List Char) : List Char :=
  match sufs with
  | [] => n
  | s :: rest =>
      if endsWithL n s.data then pyStrip (n.take (n.length - s.data.length))
      else stripFirstSuffix rest n

/-- Embedding of `_normalize_empresa` (borme_batch_parser.py lines 198-215):
upper-case and strip, strip the first matching trailing legal-form suffix
(one pass, `break` after the first hit), then drop trailing `[.,;]`
punctuation and strip again. -/
def _normalize_empresa (name : String) : String :=
  ⟨pyStrip (dropTrailingAny ['.', ',', ';']
      (stripFirstSuffix LIGHT_SUFFIX_LIST (pyStrip (pyUpper name.data))))⟩

example : _normalize_empresa "X SA SL" = "X SA" := by decide
example : _normalize_empresa "X SA" = "X" := by decide

-- ===================================================================
-- Name normalizer (matching-time strength): the suffix loop of
-- `normalize_empresa`
-- ===================================================================

/-- The ordered trailing legal-form suffix list of the fuller matching-time
normalizer `normalize_empresa` (borme_placsp_match.py lines 91-102). -/
def SUFFIXES : List String :=
  [" SOCIEDAD ANONIMA DEPORTIVA", " SOCIEDAD ANONIMA",
   " SOCIEDAD LIMITADA PROFESIONAL", " SOCIEDAD LIMITADA LABORAL",
   " SOCIEDAD LIMITADA NUEVA EMPRESA", " SOCIEDAD LIMITADA",
   " SOCIEDAD COOPERATIVA ANDALUZA", " SOCIEDAD COOPERATIVA",
   " SOCIEDAD CIVIL PROFESIONAL", " SOCIEDAD CIVIL",
   " SOCIEDAD UNIPERSONAL",
   " AGRUPACION DE INTERES ECONOMICO",
   " SAU", " SLU", " SAD", " SLL", " SLP", " SLNE",
   " SA SME", " SAE", " SME", " SA", " SL", " SC",
   " SCA", " SCCL", " SCOOP", " SE", " SRL", " AIE"]

/-- One iteration of the `while changed` body of `normalize_empresa`
(borme_placsp_match.py lines 106-111): the first matching trailing suffix in
list order is cut and the remainder stripped (`break` after the hit);
`none` when no suffix matches, i.e. `changed` stays `False` and the loop
exits. -/
def stripSuffixPass (n : List Char) : Option (List Char) :=
  match SUFFIXES.find? (fun suf => endsWithL n suf.data) with
  | some suf => some (pyStrip (n.take (n.length - suf.data.length)))
  | none => none

/-- The `while changed` loop of `normalize_empresa` (borme_placsp_match.py
lines 104-111), fueled: every pass cuts a nonempty suffix and so strictly
shortens the string, hence `n.length + 1` fuel always reaches the loop's
exit condition. -/
def stripSuffixLoop : Nat → List Char → List Char
  | 0, n => n
  | fuel + 1, n =>
      match stripSuffixPass n with
      | some n2 => stripSuffixLoop fuel n2
      | none => n

/-- The suffix-stripping stage of the fuller normalizer `normalize_empresa`.
In the source this loop runs before the final trailing `[.,;]` strip of
line 113, which is what breaks idempotence of the whole function. -/
def normalize_empresa_suffix_loop (n : List Char) : List Char :=
  stripSuffixLoop (n.length + 1) n

-- ===================================================================
-- Helper lemmas: Python string primitives
-- ===================================================================

theorem mem_dropWhile (p : Char → Bool) (l : List Char) {c : Char}
    (h : c ∈ List.dropWhile p l) : c ∈ l := by
  have := List.takeWhile_append_dropWhile (p := p) (l := l)
  rw [← this]
  exact List.mem_append_right _ h

theorem mem_stripR (l : List Char) {c : Char} (h : c ∈ stripR l) : c ∈ l :=
  (List.rdropWhile_prefix _ _).subset h

theorem mem_pyStrip (l : List Char) {c : Char} (h : c ∈ pyStrip l) : c ∈ l :=
  mem_dropWhile _ _ (mem_stripR _ h)

theorem stripR_stripR (l : List Char) : stripR (stripR l) = stripR l :=
  List.rdropWhile_idempotent _ _

theorem stripL_stripR_of_stripped {l : List Char} (h : stripL l = l) :
    stripL (stripR l) = stripR l := by
  have hpre : stripR l <+: l := List.rdropWhile_prefix _ _
  cases hsr : stripR l with
  | nil => rfl
  | cons b bs =>
      rw [hsr] at hpre
      obtain ⟨r, hr⟩ := hpre
      have h0 := (List.dropWhile_eq_self_iff).mp h
      rw [← hr] at h0
      have hb : ¬ isWsCh b = true := by
        have := h0 (by simp)
        simpa using this
      simp [stripL, List.dropWhile_cons, hb]

theorem pyStrip_idem (l : List Char) : pyStrip (pyStrip l) = pyStrip l := by
  show stripR (stripL (stripR (stripL l))) = stripR (stripL l)
  have hs : stripL (stripL l) = stripL l := List.dropWhile_idempotent _ _
  rw [stripL_stripR_of_stripped hs, stripR_stripR]

theorem mem_dropTrailingAny (chs l : List Char) {c : Char}
    (h : c ∈ dropTrailingAny chs l) : c ∈ l :=
  (List.rdropWhile_prefix _ _).subset h

theorem mem_stripFirstSuffix (sufs : List String) (n : List Char) {c : Char}
    (h : c ∈ stripFirstSuffix sufs n) : c ∈ n := by
  induction sufs with
  | nil => exact h
  | cons s rest ih =>
      simp only [stripFirstSuffix] at h
      by_cases he : endsWithL n s.data = true
      · rw [if_pos he] at h
        exact List.take_subset _ _ (mem_pyStrip _ h)
      · rw [if_neg he] at h
        exact ih h

theorem stripFirstSuffix_of_no_match {sufs : List String} {n : List Char}
    (h : ∀ s ∈ sufs, endsWithL n s.data = false) :
    stripFirstSuffix sufs n = n := by
  induction sufs with
  | nil => rfl
  | cons s rest ih =>
      simp only [stripFirstSuffix]
      rw [if_neg (by simp [h s (by simp)]), ih]
      intro x hx
      exact h x (by simp [hx])

theorem pyStrip_length_le (l : List Char) : (pyStrip l).length ≤ l.length :=
  le_trans (List.rdropWhile_prefix isWsCh (stripL l)).length_le
    (List.dropWhile_sublist isWsCh).length_le

theorem endsWithL_length_le {cs suf : List Char} (h : endsWithL cs suf = true) :
    suf.length ≤ cs.length := by
  simp only [endsWithL, Bool.and_eq_true, decide_eq_true_eq] at h
  exact h.1

theorem SUFFIXES_ne_nil : ∀ s ∈ SUFFIXES, s.data ≠ [] := by decide

theorem stripSuffixPass_shrinks {n n2 : List Char}
    (h : stripSuffixPass n = some n2) : n2.length < n.length := by
  cases hf : SUFFIXES.find? (fun suf => endsWithL n suf.data) with
  | none =>
      have hnone : stripSuffixPass n = none := by
        show (match SUFFIXES.find? (fun suf => endsWithL n suf.data) with
          | some suf => some (pyStrip (n.take (n.length - suf.data.length)))
          | none => none) = none
        rw [hf]
      rw [hnone] at h
      exact absurd h (by simp)
  | some suf =>
      have hsome : stripSuffixPass n
          = some (pyStrip (n.take (n.length - suf.data.length))) := by
        show (match SUFFIXES.find? (fun suf => endsWithL n suf.data) with
          | some suf => some (pyStrip (n.take (n.length - suf.data.length)))
          | none => none)
          = some (pyStrip (n.take (n.length - suf.data.length)))
        rw [hf]
      rw [hsome] at h
      have h2 := Option.some.inj h
      have hend : endsWithL n suf.data = true := by
        have := List.find?_some hf
        simpa using this
      have hle : suf.data.length ≤ n.length := endsWithL_length_le hend
      have hpos : 0 < suf.data.length :=
        List.length_pos.mpr (SUFFIXES_ne_nil suf (List.mem_of_find?_eq_some hf))
      rw [← h2]
      calc (pyStrip (n.take (n.length - suf.data.length))).length
          ≤ (n.take (n.length - suf.data.length)).length := pyStrip_length_le _
        _ ≤ n.length - suf.data.length := by
            rw [List.length_take]; exact Nat.min_le_left _ _
        _ < n.length := Nat.sub_lt (lt_of_lt_of_le hpos hle) hpos

theorem stripSuffixLoop_succ (fuel : Nat) (n : List Char) :
    stripSuffixLoop (fuel + 1) n =
      match stripSuffixPass n with
      | some n2 => stripSuffixLoop fuel n2
      | none => n := rfl

/-- With fuel exceeding the string length, the suffix loop runs to its exit
condition: no suffix matches its result. -/
theorem stripSuffixLoop_fix :
    ∀ fuel n, n.length < fuel →
      stripSuffixPass (stripSuffixLoop fuel n) = none := by
  intro fuel
  induction fuel with
  | zero => intro n h; exact absurd h (Nat.not_lt_zero _)
  | succ f ih =>
      intro n h
      rw [stripSuffixLoop_succ]
      cases hp : stripSuffixPass n with
      | none => exact hp
      | some n2 =>
          exact ih n2 (lt_of_lt_of_le (stripSuffixPass_shrinks hp)
            (Nat.lt_succ_iff.mp h))

theorem stripSuffixLoop_of_exit {fuel : Nat} {n : List Char}
    (h : stripSuffixPass n = none) : stripSuffixLoop fuel n = n := by
  cases fuel with
  | zero => rfl
  | succ f => rw [stripSuffixLoop_succ, h]

theorem upperTable_fixed : ∀ p ∈ upperTable, tblLookup upperTable p.2 = none := by
  decide

theorem tblLookup_mem {t : List (Char × Char)} {c u : Char}
    (h : tblLookup t c = some u) : (c, u) ∈ t := by
  induction t with
  | nil => simp [tblLookup] at h
  | cons p rest ih =>
      obtain ⟨k, v⟩ := p
      simp only [tblLookup] at h
      by_cases hc : c = k
      · rw [if_pos hc] at h
        simp at h
        simp [hc, h]
      · rw [if_neg hc] at h
        exact List.mem_cons_of_mem _ (ih h)

theorem upperChar_idem (c : Char) : upperChar (upperChar c) = upperChar c := by
  unfold upperChar
  cases h : tblLookup upperTable c with
  | none => simp [h]
  | some v =>
      have hv := tblLookup_mem h
      have := upperTable_fixed (c, v) hv
      simp at this
      simp [this]

theorem mem_pyUpper_fixed {l : List Char} {c : Char} (h : c ∈ pyUpper l) :
    upperChar c = c := by
  simp only [pyUpper, List.mem_map] at h
  obtain ⟨d, _, hd⟩ := h
  rw [← hd]
  exact upperChar_idem d

theorem pyUpper_of_fixed {l : List Char} (h : ∀ c ∈ l, upperChar c = c) :
    pyUpper l = l := by
  simp only [pyUpper]
  induction l with
  | nil => rfl
  | cons a t ih =>
      simp only [List.map_cons]
      rw [h a (by simp), ih (fun c hc => h c (by simp [hc]))]

-- ===================================================================
-- C1: idempotence of the normalizer
-- ===================================================================

/-- Every character in the output of `_normalize_empresa` came through
`pyUpper`, hence is fixed by `upperChar`. -/
theorem normalize_output_upper_fixed (s : String) :
    ∀ c ∈ (_normalize_empresa s).data, upperChar c = c := by
  intro c hc
  simp only [_normalize_empresa] at hc
  exact mem_pyUpper_fixed
    (mem_pyStrip _
      (mem_stripFirstSuffix _ _ (mem_dropTrailingAny _ _ (mem_pyStrip _ hc))))

theorem normalize_output_stripped (s : String) :
    pyStrip (_normalize_empresa s).data = (_normalize_empresa s).data := by
  simp only [_normalize_empresa]
  exact pyStrip_idem _

/-- C1 (amended): idempotence holds only in restricted forms.  The lighter
extraction-time normalizer `_normalize_empresa` is idempotent at every input
whose once-normalized output neither ends with a listed trailing legal-form
suffix nor ends with `[.,;]` punctuation; and the fuller matching-time
normalizer's `while changed` suffix loop always reaches a fixed point, so
re-running the loop on its own output removes nothing more.  The
unconditional claim is refuted by `c1_normalize_idempotence_cex`: each
function strips trailing punctuation only after its suffix stage, so a
second application of the whole function can strip a further suffix. -/
theorem c1_normalizers_conditional_idempotence (s : String) (n : List Char)
    (h1 : ∀ suf ∈ LIGHT_SUFFIX_LIST,
      endsWithL (_normalize_empresa s).data suf.data = false)
    (h2 : dropTrailingAny ['.', ',', ';'] (_normalize_empresa s).data
          = (_normalize_empresa s).data) :
    _normalize_empresa (_normalize_empresa s) = _normalize_empresa s ∧
    normalize_empresa_suffix_loop (normalize_empresa_suffix_loop n)
      = normalize_empresa_suffix_loop n := by
  constructor
  · have hupper : pyUpper (_normalize_empresa s).data = (_normalize_empresa s).data :=
      pyUpper_of_fixed (normalize_output_upper_fixed s)
    have hstrip := normalize_output_stripped s
    show (⟨pyStrip (dropTrailingAny ['.', ',', ';']
        (stripFirstSuffix LIGHT_SUFFIX_LIST
          (pyStrip (pyUpper (_normalize_empresa s).data))))⟩ : String)
      = _normalize_empresa s
    rw [hupper, hstrip, stripFirstSuffix_of_no_match h1, h2, hstrip]
  · have hfix : stripSuffixPass (stripSuffixLoop (n.length + 1) n) = none :=
      stripSuffixLoop_fix (n.length + 1) n (Nat.lt_succ_self _)
    show stripSuffixLoop ((stripSuffixLoop (n.length + 1) n).length + 1)
        (stripSuffixLoop (n.length + 1) n) = stripSuffixLoop (n.length + 1) n
    exact stripSuffixLoop_of_exit hfix

/-- C1 counterexample: the claimed idempotence law fails for both normalizers
as written.  The lighter `_normalize_empresa` strips only the first matching
suffix: `"X SA SL"` normalizes to `"X SA"`, and a second application strips
further to `"X"`.  In the fuller `normalize_empresa` the suffix loop runs
before the final trailing-punctuation strip, so a trailing semicolon hides a
suffix from the loop: the loop leaves `"X SL;"` untouched, the final
`[.,;]+$` strip then exposes the suffix `" SL"`, and a second application of
the function strips it (so `normalize_empresa "X SL;"` gives `"X SL"` while
`normalize_empresa "X SL"` gives `"X"`). -/
theorem c1_normalize_idempotence_cex :
    (_normalize_empresa "X SA SL" = "X SA" ∧
     _normalize_empresa (_normalize_empresa "X SA SL") = "X" ∧
     ¬ (_normalize_empresa (_normalize_empresa "X SA SL")
         = _normalize_empresa "X SA SL")) ∧
    (normalize_empresa_suffix_loop "X SL;".data = "X SL;".data ∧
     normalize_empresa_suffix_loop "X SL".data = "X".data) := by
  exact ⟨⟨by decide, by decide, by decide⟩, ⟨by decide, by decide⟩⟩

/-- Witness for `c1_normalizers_conditional_idempotence` at a concrete input
whose normalized form retains no suffix and no trailing punctuation, and a
concrete input to the fuller normalizer's suffix loop. -/
theorem c1_normalizers_conditional_idempotence_witness :
    (∀ suf ∈ LIGHT_SUFFIX_LIST,
      endsWithL (_normalize_empresa "Acme Soluciones Sociedad Limitada").data
        suf.data = false) ∧
    dropTrailingAny ['.', ',', ';']
        (_normalize_empresa "Acme Soluciones Sociedad Limitada").data
      = (_normalize_empresa "Acme Soluciones Sociedad Limitada").data ∧
    (_normalize_empresa (_normalize_empresa "Acme Soluciones Sociedad Limitada")
        = _normalize_empresa "Acme Soluciones Sociedad Limitada" ∧
      normalize_empresa_suffix_loop
          (normalize_empresa_suffix_loop "EMPRESA EJEMPLO SA SL".data)
        = normalize_empresa_suffix_loop "EMPRESA EJEMPLO SA SL".data) :=
  ⟨by decide, by decide,
    c1_normalizers_conditional_idempotence _ _ (by decide) (by decide)⟩

-- ===================================================================
-- Generic scanning machinery for the hand-compiled regexes
-- ===================================================================

/-- Model of Python substring containment (`pat in s`). -/
def containsSub (cs pat : List Char) : Bool :=
  match cs with
  | [] => decide (pat = [])
  | c :: t => startsWithL (c :: t) pat || containsSub t pat

/-- Length of the maximal whitespace run of `cs` starting at offset `i`
(the extent of a greedy `\s*` anchored there). -/
def wsRunFrom (cs : List Char) (i : Nat) : Nat :=
  ((cs.drop i).takeWhile isWsCh).length

/-- Try positions `p, p+1, ...` in order, returning the first hit: the
scanning loop of `re.search`. -/
def scanOption {α : Type} (f : Nat → Option α) : Nat → Nat → Option α
  | _, 0 => none
  | p, fuel + 1 =>
      match f p with
      | some r => some r
      | none => scanOption f (p + 1) fuel

/-- Python `$` without `re.MULTILINE`: end of string, or just before a final
newline. -/
def endAnchorAt (cs : List Char) (i : Nat) : Bool :=
  decide (i = cs.length) ||
  (decide (i + 1 = cs.length) &&
    (match cs.get? i with | some c => decide (c = '\n') | none => false))

/-- The terminator `[.]\s*TERM` (optionally followed by `[.:]`) matches at
offset `i`: a period, a greedy whitespace run, then the literal.  The run is
deterministic because the literal starts with a non-whitespace character. -/
def termAt (cs term : List Char) (withPunct : Bool) (i : Nat) : Bool :=
  match cs.get? i with
  | none => false
  | some c =>
      decide (c = '.') &&
      (occursAtL cs term (i + 1 + wsRunFrom cs (i + 1)) &&
        (if withPunct then
          (match cs.get? (i + 1 + wsRunFrom cs (i + 1) + term.length) with
           | some d => decide (d = '.') || decide (d = ':')
           | none => false)
         else true))

/-- Lazy expansion of `(.+?)` ahead of terminator-or-`$`: `k` characters
starting at `a` are already taken; stop at the first `k` whose follow-up
position satisfies the terminator or the end anchor, extending one character
at a time (any character under `re.DOTALL`, non-newline otherwise). -/
def lazyCapLen (dotAll withPunct : Bool) (cs term : List Char) (a : Nat) :
    Nat → Nat → Option Nat
  | _, 0 => none
  | k, fuel + 1 =>
      if termAt cs term withPunct (a + k) || endAnchorAt cs (a + k) then some k
      else
        match cs.get? (a + k) with
        | none => none
        | some c =>
            if dotAll || !decide (c = '\n') then
              lazyCapLen dotAll withPunct cs term a (k + 1) fuel
            else none

/-- A `(.+?)`-capture starting exactly at offset `a`. -/
def capFrom (dotAll withPunct : Bool) (cs term : List Char) (a : Nat) :
    Option (List Char) :=
  match cs.get? a with
  | none => none
  | some c =>
      if dotAll || !decide (c = '\n') then
        match lazyCapLen dotAll withPunct cs term a 1 (cs.length + 1) with
        | some k => some ((cs.drop a).take k)
        | none => none
      else none

/-- Backtracking of the greedy `\s*` before `(.+?)`: try the longest
whitespace prefix first (`j` characters consumed), giving back one character
at a time. -/
def capWithWsBack (dotAll withPunct : Bool) (cs term : List Char) (q : Nat) :
    Nat → Option (List Char)
  | 0 => capFrom dotAll withPunct cs term q
  | j + 1 =>
      match capFrom dotAll withPunct cs term (q + (j + 1)) with
      | some r => some r
      | none => capWithWsBack dotAll withPunct cs term q j

/-- Attempt `LBL[.:]\s*(.+?)(?:[.]\s*TERM([.:])?|$)` anchored at offset `p`. -/
def labelCapTry (dotAll withPunct : Bool) (lbl term cs : List Char) (p : Nat) :
    Option (List Char) :=
  if occursAtL cs lbl p then
    match cs.get? (p + lbl.length) with
    | some c =>
        if decide (c = '.') || decide (c = ':') then
          capWithWsBack dotAll withPunct cs term (p + lbl.length + 1)
            (wsRunFrom cs (p + lbl.length + 1))
        else none
    | none => none
  else none

/-- `re.search` for the label-capture family of patterns of the source
(`DOMICILIO_RE`, `OBJETO_RE` and the in-line change-of-domicile pattern). -/
def searchLabelCap (dotAll withPunct : Bool) (lbl term : String)
    (cs : List Char) : Option (List Char) :=
  scanOption (labelCapTry dotAll withPunct lbl.data term.data cs) 0 (cs.length + 1)

/-- `DOMICILIO_RE = Domicilio[.:]\s*(.+?)(?:[.]\s*Capital[.:]|$)`, DOTALL. -/
def domicilioSearch (body : List Char) : Option (List Char) :=
  searchLabelCap true true "Domicilio" "Capital" body

/-- `OBJETO_RE = Objeto social[.:]\s*(.+?)(?:[.]\s*Domicilio[.:]|$)`, DOTALL. -/
def objetoSearch (body : List Char) : Option (List Char) :=
  searchLabelCap true true "Objeto social" "Domicilio" body

/-- The in-line pattern
`Cambio de domicilio social[.:]\s*(.+?)(?:[.]\s*Datos registrales|$)`
(no DOTALL). -/
def cambioDomicilioSearch (body : List Char) : Option (List Char) :=
  searchLabelCap false false "Cambio de domicilio social" "Datos registrales" body

-- ===================================================================
-- The act vocabulary and the per-entry `actos` list (C2)
-- ===================================================================

/-- The fixed controlled act vocabulary `ACTOS`
(borme_batch_parser.py lines 76-109), in source order. -/
def ACTOS : List String :=
  ["Constitución", "Disolución", "Extinción",
   "Ceses/Dimisiones", "Nombramientos", "Revocaciones", "Reelecciones",
   "Cancelaciones de oficio de nombramientos",
   "Nombramiento de administradores",
   "Modificaciones estatutarias",
   "Cambio de domicilio social", "Cambio de objeto social",
   "Cambio de denominación social",
   "Ampliación del objeto social", "Ampliacion del objeto social",
   "Ampliación de capital", "Reducción de capital",
   "Fusión por absorción", "Fusión", "Escisión", "Transformación de sociedad",
   "Transformación",
   "Situación concursal",
   "Auto de declaración de concurso",
   "Auto de apertura de la fase de liquidación",
   "Auto de conclusión del concurso",
   "Revocación de administradores concursales",
   "Crédito incobrable",
   "Cierre provisional hoja registral",
   "Reapertura hoja registral",
   "Declaración de unipersonalidad",
   "Pérdida del carácter de unipersonalidad",
   "Pérdida del caracter de unipersonalidad",
   "Otros conceptos", "Fe de erratas", "Depósito de cuentas anuales",
   "Empresario Individual", "Sociedad unipersonal"]

/-- The act-detection test of the vocabulary loop:
`acto + "." in body or acto + ":" in body`. -/
def hasActoTerm (body : List Char) (acto : String) : Bool :=
  containsSub body (acto.data ++ ['.']) || containsSub body (acto.data ++ [':'])

/-- The Constitución special case (line 334):
`"Constitución." in body or "Constitución:" in body`. -/
def constitucionDetected (body : List Char) : Bool :=
  containsSub body "Constitución.".data || containsSub body "Constitución:".data

/-- Contents of the `actos` accumulator before the vocabulary loop runs:
`"Constitución"` is appended first when detected (line 335); then, when
`DOMICILIO_RE` fails but the literal `"Cambio de domicilio social."` occurs,
the extra label `"Cambio de domicilio"` is appended (line 347). -/
def actosInit (body : List Char) : List String :=
  (if constitucionDetected body then ["Constitución"] else []) ++
  (if (domicilioSearch body).isSome = false &&
      containsSub body "Cambio de domicilio social.".data then
    ["Cambio de domicilio"]
   else [])

/-- One iteration of the vocabulary loop (lines 360-363). -/
def actoStep (body : List Char) (acc : List String) (acto : String) :
    List String :=
  if hasActoTerm body acto && decide (acto ≠ "Constitución") &&
      decide (acto ∉ acc) then
    acc ++ [acto]
  else acc

/-- The `actos` list built for one entry body (lines 333-364). -/
def actosOf (body : List Char) : List String :=
  ACTOS.foldl (actoStep body) (actosInit body)

/-- The pure per-act predicate of the vocabulary loop. -/
def actoKept (body : List Char) (acto : String) : Bool :=
  hasActoTerm body acto && decide (acto ≠ "Constitución")

theorem foldl_actoStep (body : List Char) (l : List String) (acc : List String)
    (hd : ∀ a ∈ l, actoKept body a = true → a ∉ acc) (hnd : l.Nodup) :
    l.foldl (actoStep body) acc = acc ++ l.filter (actoKept body) := by
  induction l generalizing acc with
  | nil => simp
  | cons x xs ih =>
      have hx : actoStep body acc x =
          if actoKept body x then acc ++ [x] else acc := by
        by_cases hk : actoKept body x = true
        · have hmem : x ∉ acc := hd x (by simp) hk
          simp only [actoStep, actoKept] at hk ⊢
          rw [if_pos, if_pos hk]
          simp only [Bool.and_eq_true] at hk
          simp [hk.1, hk.2, hmem]
        · simp only [actoStep, actoKept] at hk ⊢
          rw [if_neg, if_neg hk]
          simp only [Bool.and_eq_true, not_and] at hk
          intro hcon
          simp only [Bool.and_eq_true] at hcon
          exact absurd hcon.1.2 (by simpa using hk hcon.1.1)
      simp only [List.foldl_cons, hx]
      by_cases hk : actoKept body x = true
      · rw [if_pos hk]
        rw [ih (acc ++ [x]) ?_ (List.Nodup.of_cons hnd)]
        · simp [List.filter_cons, hk]
        · intro a ha hka
          have hax : a ≠ x := by
            intro he
            rw [he] at ha
            exact (List.nodup_cons.mp hnd).1 ha
          have := hd a (by simp [ha]) hka
          simp [hax, this]
      · rw [if_neg hk]
        rw [ih acc ?_ (List.Nodup.of_cons hnd)]
        · simp [List.filter_cons, hk]
        · intro a ha hka
          exact hd a (by simp [ha]) hka

theorem actos_nodup : ACTOS.Nodup := by decide

theorem cambio_not_in_actos : ("Cambio de domicilio" : String) ∉ ACTOS := by
  decide

/-- C2 (amended): for every body, the `actos` list is: `"Constitución"`
first when detected; then the extra non-vocabulary label
`"Cambio de domicilio"` when the `Domicilio` anchor pattern fails but the
literal `"Cambio de domicilio social."` occurs; then every remaining
vocabulary act whose label occurs immediately followed by `.` or `:`, in
vocabulary order, none repeated. -/
theorem c2_actos_characterization (body : List Char) :
    actosOf body = actosInit body ++ ACTOS.filter (actoKept body) := by
  rw [actosOf, foldl_actoStep body ACTOS (actosInit body) ?_ actos_nodup]
  intro a ha hk hmem
  simp only [actosInit] at hmem
  rcases List.mem_append.mp hmem with h1 | h2
  · have : a = "Constitución" := by
      by_cases hc : constitucionDetected body = true
      · rw [if_pos hc] at h1
        simpa using h1
      · rw [if_neg hc] at h1
        simp at h1
    rw [this] at hk
    simp [actoKept] at hk
  · have : a = "Cambio de domicilio" := by
      by_cases hc : ((domicilioSearch body).isSome = false &&
          containsSub body "Cambio de domicilio social.".data) = true
      · rw [if_pos hc] at h2
        simpa using h2
      · rw [if_neg hc] at h2
        simp at h2
    rw [this] at ha
    exact cambio_not_in_actos ha

/-- C2 counterexample: on the body `". Cambio de domicilio social. CALLE
MAYOR 1"` the emitted `actos` list contains the label
`"Cambio de domicilio"`, which is not a member of the controlled vocabulary
at all, and precedes the vocabulary act; so the list does not consist
exactly of vocabulary acts in vocabulary order. -/
theorem c2_actos_vocabulary_cex :
    actosOf ". Cambio de domicilio social. CALLE MAYOR 1".data
      = ["Cambio de domicilio", "Cambio de domicilio social"] ∧
    ¬ (∀ a ∈ actosOf ". Cambio de domicilio social. CALLE MAYOR 1".data,
        a ∈ ACTOS) := by
  refine ⟨by decide, by decide⟩

-- ===================================================================
-- Entry segmentation (C3): `ENTRY_START_RE = ^(\d{4,7})\s*-\s*`, MULTILINE
-- ===================================================================

/-- One match of `ENTRY_START_RE`: span `[mstart, mstop)` of the cleaned
text plus the captured digit group (the entry number). -/
structure MMatch where
  mstart : Nat
  mstop : Nat
  num : List Char
deriving DecidableEq

/-- Attempt `(\d{4,7})\s*-\s*` at the head of `suf`, returning the consumed
length and the digit capture.  The pattern is deterministic here: a shorter
greedy digit take would leave a digit where `\s*-` must match, so the only
viable digit group is the full run, of length 4 to 7. -/
def matchMarkerAt (suf : List Char) : Option (Nat × List Char) :=
  if 4 ≤ (suf.takeWhile isDigitCh).length && (suf.takeWhile isDigitCh).length ≤ 7 then
    match (suf.drop (suf.takeWhile isDigitCh).length).drop
        ((suf.drop (suf.takeWhile isDigitCh).length).takeWhile isWsCh).length with
    | '-' :: rest2 =>
        some ((suf.takeWhile isDigitCh).length +
          ((suf.drop (suf.takeWhile isDigitCh).length).takeWhile isWsCh).length +
          1 + (rest2.takeWhile isWsCh).length,
          suf.takeWhile isDigitCh)
    | _ => none
  else none

def endsInNewline (l : List Char) : Bool :=
  match l.getLast? with
  | some c => decide (c = '\n')
  | none => false

/-- The `finditer` scan for `ENTRY_START_RE`: positions are tried left to
right; the `^` anchor (MULTILINE) holds at offset 0 and right after a
newline; after a match the scan resumes at its end. -/
def markerScan : Nat → List Char → Nat → Bool → List MMatch
  | 0, _, _, _ => []
  | fuel + 1, suf, pos, atLS =>
      match (if atLS then matchMarkerAt suf else none) with
      | some r =>
          ⟨pos, pos + r.1, r.2⟩ ::
            markerScan fuel (suf.drop r.1) (pos + r.1) (endsInNewline (suf.take r.1))
      | none =>
          match suf with
          | [] => []
          | c :: t => markerScan fuel t (pos + 1) (decide (c = '\n'))

/-- `list(ENTRY_START_RE.finditer(text))` (line 274). -/
def findMarkers (text : List Char) : List MMatch :=
  markerScan (text.length + 1) text 0 true

/-- A half-open entry span with its entry number. -/
structure EntrySpan where
  num : List Char
  estart : Nat
  estop : Nat
deriving DecidableEq

/-- The spans consumed by the entry loop (lines 282-285): each entry runs
from its own marker's end to the next marker's start, or to the end of the
text for the last one. -/
def segmentSpans (textLen : Nat) : List MMatch → List EntrySpan
  | [] => []
  | m :: rest =>
      ⟨m.num, m.mstop,
        match rest with
        | next :: _ => next.mstart
        | [] => textLen⟩ :: segmentSpans textLen rest

/-- Scanner invariant: every emitted match sits inside `[lo, hi)`, has
positive width, and ends no later than the next one starts. -/
def MarksOK (lo hi : Nat) : List MMatch → Prop
  | [] => True
  | m :: rest => lo ≤ m.mstart ∧ m.mstart < m.mstop ∧ m.mstop ≤ hi ∧
      MarksOK m.mstop hi rest

theorem marksOK_mono {lo lo' hi : Nat} {l : List MMatch} (h : MarksOK lo' hi l)
    (hle : lo ≤ lo') : MarksOK lo hi l := by
  cases l with
  | nil => trivial
  | cons m rest => exact ⟨le_trans hle h.1, h.2.1, h.2.2.1, h.2.2.2⟩

theorem matchMarkerAt_len {suf : List Char} {len : Nat} {num : List Char}
    (h : matchMarkerAt suf = some (len, num)) : 1 ≤ len ∧ len ≤ suf.length := by
  rw [matchMarkerAt] at h
  by_cases hd : (4 ≤ (suf.takeWhile isDigitCh).length &&
      (suf.takeWhile isDigitCh).length ≤ 7) = true
  · rw [if_pos hd] at h
    set r := (suf.takeWhile isDigitCh).length with hr
    set rest := suf.drop r with hrest
    set w1 := (rest.takeWhile isWsCh).length with hw1
    cases hm : rest.drop w1 with
    | nil => rw [hm] at h; exact absurd h (by simp)
    | cons c rest2 =>
        rw [hm] at h
        by_cases hc : c = '-'
        · subst hc
          simp only [Option.some.injEq, Prod.mk.injEq] at h
          have hlen := h.1
          have h1 : r ≤ suf.length := by
            rw [hr]; exact (suf.takeWhile_sublist _).length_le
          have h2 : w1 ≤ rest.length := by
            rw [hw1]; exact (rest.takeWhile_sublist _).length_le
          have h3 : rest.length = suf.length - r := by
            rw [hrest]; exact List.length_drop _ _
          have h4 : (rest.drop w1).length = rest.length - w1 := List.length_drop _ _
          have h5 : (rest.drop w1).length = rest2.length + 1 := by rw [hm]; simp
          have h6 : (rest2.takeWhile isWsCh).length ≤ rest2.length :=
            (rest2.takeWhile_sublist _).length_le
          omega
        · exact absurd h (by simp [hc])
  · rw [if_neg hd] at h
    exact absurd h (by simp)

theorem markerScan_marksOK :
    ∀ (fuel : Nat) (suf : List Char) (pos : Nat) (atLS : Bool),
      MarksOK pos (pos + suf.length) (markerScan fuel suf pos atLS) := by
  intro fuel
  induction fuel with
  | zero => intro suf pos atLS; trivial
  | succ f ih =>
      intro suf pos atLS
      show MarksOK pos (pos + suf.length)
        (match (if atLS then matchMarkerAt suf else none) with
         | some r => ⟨pos, pos + r.1, r.2⟩ ::
             markerScan f (suf.drop r.1) (pos + r.1) (endsInNewline (suf.take r.1))
         | none =>
             match suf with
             | [] => []
             | c :: t => markerScan f t (pos + 1) (decide (c = '\n')))
      cases hmm : (if atLS then matchMarkerAt suf else none) with
      | some r =>
          obtain ⟨len, num⟩ := r
          have hm : matchMarkerAt suf = some (len, num) := by
            by_cases ha : atLS = true
            · rwa [if_pos ha] at hmm
            · rw [if_neg ha] at hmm; exact absurd hmm (by simp)
          obtain ⟨h1, h2⟩ := matchMarkerAt_len hm
          refine ⟨le_refl _, ?_, ?_, ?_⟩
          · show pos < pos + len
            omega
          · show pos + len ≤ pos + suf.length
            omega
          · show MarksOK (pos + len) (pos + suf.length)
              (markerScan f (suf.drop len) (pos + len) (endsInNewline (suf.take len)))
            have := ih (suf.drop len) (pos + len) (endsInNewline (suf.take len))
            have hlen : (suf.drop len).length = suf.length - len := List.length_drop _ _
            rw [hlen] at this
            have heq : pos + len + (suf.length - len) = pos + suf.length := by omega
            rwa [heq] at this
      | none =>
          cases suf with
          | nil => trivial
          | cons c t =>
              show MarksOK pos (pos + (c :: t).length)
                (markerScan f t (pos + 1) (decide (c = '\n')))
              have := ih t (pos + 1) (decide (c = '\n'))
              have heq : pos + 1 + t.length = pos + (c :: t).length := by
                simp
                omega
              rw [heq] at this
              exact marksOK_mono this (by omega)

theorem findMarkers_marksOK (text : List Char) :
    MarksOK 0 text.length (findMarkers text) := by
  have := markerScan_marksOK (text.length + 1) text 0 true
  simpa using this

theorem marksOK_get?_succ {lo hi : Nat} :
    ∀ {l : List MMatch} (_ : MarksOK lo hi l) {i : Nat} {m m2 : MMatch},
      l.get? i = some m → l.get? (i + 1) = some m2 →
      m.mstart < m.mstop ∧ m.mstop ≤ m2.mstart := by
  intro l
  induction l generalizing lo with
  | nil => intro _ i m m2 h1; simp at h1
  | cons x xs ih =>
      intro h i m m2 h1 h2
      cases i with
      | zero =>
          obtain rfl : x = m := by simpa using h1
          cases xs with
          | nil => simp at h2
          | cons y ys =>
              obtain rfl : y = m2 := by simpa using h2
              exact ⟨h.2.1, h.2.2.2.1⟩
      | succ j =>
          simp only [List.get?_cons_succ] at h1 h2
          exact ih h.2.2.2 h1 h2

theorem marksOK_get?_bounds {lo hi : Nat} :
    ∀ {l : List MMatch} (_ : MarksOK lo hi l) {i : Nat} {m : MMatch},
      l.get? i = some m → m.mstart < m.mstop ∧ m.mstop ≤ hi := by
  intro l
  induction l generalizing lo with
  | nil => intro _ i m h1; simp at h1
  | cons x xs ih =>
      intro h i m h1
      cases i with
      | zero =>
          simp at h1
          subst h1
          exact ⟨h.2.1, h.2.2.1⟩
      | succ j =>
          simp only [List.get?_cons_succ] at h1
          exact ih h.2.2.2 h1

theorem segmentSpans_length (n : Nat) :
    ∀ ms : List MMatch, (segmentSpans n ms).length = ms.length := by
  intro ms
  induction ms with
  | nil => rfl
  | cons m rest ih => simp [segmentSpans, ih]

theorem segmentSpans_get? (n : Nat) :
    ∀ (ms : List MMatch) (i : Nat) (m : MMatch) (e : EntrySpan),
      ms.get? i = some m → (segmentSpans n ms).get? i = some e →
      e.num = m.num ∧ e.estart = m.mstop ∧
      e.estop = (match ms.get? (i + 1) with
                 | some m2 => m2.mstart
                 | none => n) := by
  intro ms
  induction ms with
  | nil => intro i m e h1; simp at h1
  | cons x xs ih =>
      intro i m e h1 h2
      cases i with
      | zero =>
          simp at h1
          subst h1
          simp only [segmentSpans, List.get?_cons_zero, Option.some.injEq] at h2
          subst h2
          cases xs with
          | nil => exact ⟨rfl, rfl, rfl⟩
          | cons y ys => exact ⟨rfl, rfl, rfl⟩
      | succ j =>
          simp only [List.get?_cons_succ] at h1
          simp only [segmentSpans, List.get?_cons_succ] at h2
          exact ih j m e h1 h2

/-- C3: segmentation coverage.  For every cleaned text: the entry spans are
in one-to-one order-preserving correspondence with the markers, entry `i`
spans `[mstop i, mstart (i+1))` (or to the end of the text for the last),
each span is well-formed (`estart ≤ estop`, `estop ≤ length`), consecutive
spans are strictly ordered and disjoint, and a text with zero markers yields
zero entries.  (The zero-record half of the zero-marker case is
`c3_zero_markers_zero_records`, proved at pipeline level below.) -/
theorem c3_segmentation_coverage (text : List Char) :
    ((segmentSpans text.length (findMarkers text)).length
        = (findMarkers text).length) ∧
    (∀ (i : Nat) (m : MMatch) (e : EntrySpan),
      (findMarkers text).get? i = some m →
      (segmentSpans text.length (findMarkers text)).get? i = some e →
      e.num = m.num ∧ e.estart = m.mstop ∧
      e.estop = (match (findMarkers text).get? (i + 1) with
                 | some m2 => m2.mstart
                 | none => text.length) ∧
      e.estart ≤ e.estop ∧ e.estop ≤ text.length) ∧
    (∀ (i : Nat) (e e2 : EntrySpan),
      (segmentSpans text.length (findMarkers text)).get? i = some e →
      (segmentSpans text.length (findMarkers text)).get? (i + 1) = some e2 →
      e.estop ≤ e2.estart ∧ e.estart < e2.estart) ∧
    (findMarkers text = [] →
      segmentSpans text.length (findMarkers text) = []) := by
  have hOK := findMarkers_marksOK text
  refine ⟨segmentSpans_length _ _, ?_, ?_, ?_⟩
  · intro i m e h1 h2
    obtain ⟨hn, hs, ht⟩ := segmentSpans_get? text.length (findMarkers text) i m e h1 h2
    refine ⟨hn, hs, ht, ?_, ?_⟩
    · rw [hs]
      cases h3 : (findMarkers text).get? (i + 1) with
      | some m2 =>
          have ht' : e.estop = m2.mstart := by rw [ht, h3]
          rw [ht']
          exact (marksOK_get?_succ hOK h1 h3).2
      | none =>
          have ht' : e.estop = text.length := by rw [ht, h3]
          rw [ht']
          exact (marksOK_get?_bounds hOK h1).2
    · cases h3 : (findMarkers text).get? (i + 1) with
      | some m2 =>
          have ht' : e.estop = m2.mstart := by rw [ht, h3]
          have := marksOK_get?_bounds hOK h3
          omega
      | none =>
          have ht' : e.estop = text.length := by rw [ht, h3]
          omega
  · intro i e e2 h1 h2
    have hl := segmentSpans_length text.length (findMarkers text)
    have hi2 : i + 1 < (segmentSpans text.length (findMarkers text)).length := by
      by_contra hlt
      push_neg at hlt
      rw [List.get?_eq_none.mpr hlt] at h2
      exact absurd h2 (by simp)
    have hm1 : ∃ m, (findMarkers text).get? i = some m := by
      cases hm : (findMarkers text).get? i with
      | none =>
          have := List.get?_eq_none.mp hm
          omega
      | some m => exact ⟨m, rfl⟩
    have hm2e : ∃ m2, (findMarkers text).get? (i + 1) = some m2 := by
      cases hm : (findMarkers text).get? (i + 1) with
      | none =>
          have := List.get?_eq_none.mp hm
          omega
      | some m2 => exact ⟨m2, rfl⟩
    obtain ⟨m, hm⟩ := hm1
    obtain ⟨m2, hm2⟩ := hm2e
    obtain ⟨_, hs1, ht1⟩ := segmentSpans_get? text.length _ i m e hm h1
    obtain ⟨_, hs2, _⟩ := segmentSpans_get? text.length _ (i + 1) m2 e2 hm2 h2
    have hmm := marksOK_get?_succ hOK hm hm2
    have hb2 := marksOK_get?_bounds hOK hm2
    have ht1' : e.estop = m2.mstart := by rw [ht1, hm2]
    constructor
    · rw [ht1', hs2]
      omega
    · rw [hs1, hs2]
      omega
  · intro h
    rw [h]
    rfl

/-- Witness for `c3_segmentation_coverage`: a concrete two-entry text. -/
theorem c3_segmentation_coverage_witness :
    (segmentSpans ("1234- A\n56789- B".data.length)
        (findMarkers "1234- A\n56789- B".data)).length
      = (findMarkers "1234- A\n56789- B".data).length ∧
    ((findMarkers "1234- A\n56789- B".data).get? 0
        = some ⟨0, 6, "1234".data⟩) ∧
    ((segmentSpans ("1234- A\n56789- B".data.length)
        (findMarkers "1234- A\n56789- B".data)).get? 0
        = some ⟨"1234".data, 6, 8⟩) ∧
    ("1234".data = "1234".data ∧ (6 : Nat) = 6 ∧ (8 : Nat) = 8 ∧
      (6 : Nat) ≤ 8 ∧ (8 : Nat) ≤ "1234- A\n56789- B".data.length) := by
  refine ⟨(c3_segmentation_coverage "1234- A\n56789- B".data).1, by decide, by decide, ?_⟩
  have h := (c3_segmentation_coverage "1234- A\n56789- B".data).2.1 0
    ⟨0, 6, "1234".data⟩ ⟨"1234".data, 6, 8⟩ (by decide) (by decide)
  exact ⟨h.1, h.2.1, by decide, h.2.2.2.1, h.2.2.2.2⟩

-- ===================================================================
-- Name/body boundary detector (C4)
-- ===================================================================

/-- `[A-ZÁÉÍÓÚÑ]`. -/
def isCapCh (c : Char) : Bool :=
  ('A' ≤ c && c ≤ 'Z') || c = 'Á' || c = 'É' || c = 'Í' || c = 'Ó' ||
    c = 'Ú' || c = 'Ñ'

/-- `[a-záéíóúñ]`. -/
def isLowCh (c : Char) : Bool :=
  ('a' ≤ c && c ≤ 'z') || c = 'á' || c = 'é' || c = 'í' || c = 'ó' ||
    c = 'ú' || c = 'ñ'

/-- The fixed legal-form token set `_LEGAL_FORMS` (lines 123-128). -/
def _LEGAL_FORMS : List String :=
  ["Sociedad", "Limitada", "Anónima", "Anonima", "Cooperativa", "Profesional",
   "Laboral", "Deportiva", "Unipersonal", "Civil", "Comanditaria", "Colectiva",
   "Comandita", "Agrupación", "Agrupacion", "Europea", "Responsabilidad",
   "Sucursal", "Nueva", "Empresa"]

/-- One candidate of `_BODY_START_RE = (?<=\.)\s+(?=[A-ZÁÉÍÓÚÑ][a-záéíóúñ]\x7b2,\x7d)`
at offset `p`: the lookbehind demands a period right before `p`, the match
consumes the whole whitespace run (greedy; shorter takes put a whitespace
character under the lookahead, which then fails), and the lookahead demands
a capital plus two lowercase letters.  Returns the match end. -/
def bodyCandAt (cs : List Char) (p : Nat) : Option Nat :=
  if 1 ≤ p then
    match cs.get? (p - 1), cs.get? p with
    | some prev, some c =>
        if decide (prev = '.') && isWsCh c then
          match cs.get? (p + wsRunFrom cs p), cs.get? (p + wsRunFrom cs p + 1),
              cs.get? (p + wsRunFrom cs p + 2) with
          | some a, some b, some d =>
              if isCapCh a && isLowCh b && isLowCh d then
                some (p + wsRunFrom cs p)
              else none
          | _, _, _ => none
        else none
    | _, _ => none
  else none

/-- All `_BODY_START_RE` matches of the block as `(start, end)` pairs, in
position order.  Two matches can never overlap (a candidate start needs a
period right before it, and every interior position of a match has
whitespace there), so `finditer` visits exactly the per-position hits. -/
def bodyCands (cs : List Char) : List (Nat × Nat) :=
  (List.range cs.length).filterMap fun p => (bodyCandAt cs p).map fun e => (p, e)

/-- `first_word` of the text after a candidate (lines 301-302):
40 characters, cut at the first period, colon and space, then stripped. -/
def firstWordAfter (cs : List Char) (e : Nat) : List Char :=
  pyStrip (((((cs.drop e).take 40).takeWhile fun c => !decide (c = '.')).takeWhile
      fun c => !decide (c = ':')).takeWhile fun c => !decide (c = ' '))

/-- The legal-form rejection test of line 303. -/
def legalNext (cs : List Char) (e : Nat) : Bool :=
  _LEGAL_FORMS.contains ⟨firstWordAfter cs e⟩

/-- `_FE_ERRATAS_RE = \.\s+Fe de erratas` attempted at offset `p` (the match
starts at the period).  The greedy `\s+` is deterministic before the literal
`F`. -/
def feCandAt (cs : List Char) (p : Nat) : Bool :=
  (match cs.get? p with | some c => decide (c = '.') | none => false) &&
  decide (1 ≤ wsRunFrom cs (p + 1)) &&
  occursAtL cs "Fe de erratas".data (p + 1 + wsRunFrom cs (p + 1))

/-- `_FE_ERRATAS_RE.search(block)` (line 294): position of the first match. -/
def feSearchPos (cs : List Char) : Option Nat :=
  (List.range cs.length).find? (feCandAt cs)

/-- The initial `body_pos` (lines 291-296): the block length, lowered to
`fe.start() + 1` when the erratum phrase occurs. -/
def feInit (cs : List Char) : Nat :=
  match feSearchPos cs with
  | some fp => fp + 1
  | none => cs.length

/-- The candidate loop of lines 298-306: skip legal-form candidates, break
at the first candidate at or beyond the current `body_pos`, accept the
first remaining one at `start + 1`. -/
def boundaryLoop (cs : List Char) : List (Nat × Nat) → Nat → Nat
  | [], bodyPos => bodyPos
  | (p, e) :: rest, bodyPos =>
      if p + 1 ≥ bodyPos then bodyPos
      else if legalNext cs e then boundaryLoop cs rest bodyPos
      else p + 1

/-- The `body_pos` computed for a block (lines 291-306). -/
def findBodyPos (cs : List Char) : Nat :=
  boundaryLoop cs (bodyCands cs) (feInit cs)

/-- `empresa = block[:body_pos].strip().rstrip('.')` (line 308). -/
def empresaOf (block : List Char) : List Char :=
  dropTrailingAny ['.'] (pyStrip (block.take (findBodyPos block)))

/-- `body = ". " + block[body_pos:].strip() if body_pos < len(block) else ""`
(line 309). -/
def bodyOf (block : List Char) : List Char :=
  if findBodyPos block < block.length then
    '.' :: ' ' :: pyStrip (block.drop (findBodyPos block))
  else []

/-- Modelled from the claim wording (no erratum special case): the boundary
is `start + 1` of the first candidate whose following word is not a
legal-form token, or the block length when there is none. -/
def claimedBodyPos (block : List Char) : Nat :=
  match (bodyCands block).find? (fun pe => !legalNext block pe.2) with
  | some pe => pe.1 + 1
  | none => block.length

/-- Modelled from the claim wording: the company name under
`claimedBodyPos`. -/
def claimedEmpresa (block : List Char) : List Char :=
  dropTrailingAny ['.'] (pyStrip (block.take (claimedBodyPos block)))

theorem filterMap_cand_pairwise (cs : List Char) :
    ∀ l : List Nat, l.Pairwise (· < ·) →
      (l.filterMap fun p => (bodyCandAt cs p).map fun e => (p, e)).Pairwise
        (fun a b => a.1 < b.1) := by
  intro l
  induction l with
  | nil => intro _; simp
  | cons x xs ih =>
      intro hp
      simp only [List.filterMap_cons]
      cases hc : (bodyCandAt cs x).map fun e => (x, e) with
      | none => exact ih (List.Pairwise.of_cons hp)
      | some pe =>
          refine List.Pairwise.cons ?_ (ih (List.Pairwise.of_cons hp))
          intro b hb
          obtain ⟨a, ha, hfa⟩ := List.mem_filterMap.mp hb
          have hb1 : b.1 = a := by
            cases hca : bodyCandAt cs a with
            | none => rw [hca] at hfa; simp at hfa
            | some e2 => rw [hca] at hfa; simp at hfa; rw [← hfa]
          have hpe : pe.1 = x := by
            cases hcx : bodyCandAt cs x with
            | none => rw [hcx] at hc; simp at hc
            | some e1 => rw [hcx] at hc; simp at hc; rw [← hc]
          rw [hb1, hpe]
          exact (List.pairwise_cons.mp hp).1 a ha

theorem bodyCands_pairwise (cs : List Char) :
    (bodyCands cs).Pairwise (fun a b => a.1 < b.1) :=
  filterMap_cand_pairwise cs _ (List.pairwise_lt_range cs.length)

theorem boundaryLoop_eq_decl (cs : List Char) (fb : Nat) :
    ∀ l : List (Nat × Nat), l.Pairwise (fun a b => a.1 < b.1) →
      boundaryLoop cs l fb =
        (match l.find? (fun pe => !legalNext cs pe.2) with
         | some pe => if pe.1 + 1 < fb then pe.1 + 1 else fb
         | none => fb) := by
  intro l
  induction l with
  | nil => intro _; rfl
  | cons pe rest ih =>
      intro hp
      obtain ⟨p, e⟩ := pe
      rw [boundaryLoop]
      cases hfc : ((p, e) :: rest).find? (fun q => !legalNext cs q.2) with
      | none =>
          have hall := List.find?_eq_none.mp hfc
          have hhead : legalNext cs e = true := by
            have := hall (p, e) (by simp)
            simpa using this
          have hrest : rest.find? (fun q => !legalNext cs q.2) = none :=
            List.find?_eq_none.mpr fun x hx => hall x (by simp [hx])
          by_cases hbr : p + 1 ≥ fb
          · rw [if_pos hbr]
          · rw [if_neg hbr, if_pos hhead, ih (List.Pairwise.of_cons hp), hrest]
      | some q =>
          by_cases hlegal : legalNext cs e = true
          · have hfind : rest.find? (fun q => !legalNext cs q.2) = some q := by
              rw [← hfc, List.find?_cons_of_neg]
              simp [hlegal]
            have hmem := List.mem_of_find?_eq_some hfind
            have hlt : p < q.1 := (List.pairwise_cons.mp hp).1 q hmem
            by_cases hbr : p + 1 ≥ fb
            · rw [if_pos hbr]
              show fb = if q.1 + 1 < fb then q.1 + 1 else fb
              rw [if_neg (show ¬ (q.1 + 1 < fb) by omega)]
            · rw [if_neg hbr, if_pos hlegal, ih (List.Pairwise.of_cons hp), hfind]
          · have hq : q = (p, e) := by
              have h2 : ((p, e) :: rest).find? (fun q => !legalNext cs q.2)
                  = some (p, e) := by
                rw [List.find?_cons_of_pos]
                simp [hlegal]
              rw [hfc] at h2
              exact Option.some.inj h2
            subst hq
            by_cases hbr : p + 1 ≥ fb
            · rw [if_pos hbr]
              show fb = if p + 1 < fb then p + 1 else fb
              rw [if_neg (show ¬ (p + 1 < fb) by omega)]
            · rw [if_neg hbr, if_neg hlegal]
              show p + 1 = if p + 1 < fb then p + 1 else fb
              rw [if_pos (show p + 1 < fb by omega)]

/-- C4 (amended): the boundary is the earlier of (a) the first regular
candidate (period, whitespace run, capital followed by two lowercase
letters) whose following word is not a legal-form token, taken at
`start + 1`, and (b) the erratum candidate `fe.start() + 1` when the
literal phrase `. Fe de erratas` occurs (block length when it does not);
the company name is the text before that boundary, stripped, with trailing
periods removed, and the body is `". "` plus the stripped remainder (empty
when the boundary is at the end). -/
theorem c4_boundary_amended (block : List Char) :
    findBodyPos block =
      (match (bodyCands block).find? (fun pe => !legalNext block pe.2) with
       | some pe => if pe.1 + 1 < feInit block then pe.1 + 1 else feInit block
       | none => feInit block) ∧
    empresaOf block = dropTrailingAny ['.'] (pyStrip (block.take (findBodyPos block))) ∧
    bodyOf block =
      (if findBodyPos block < block.length then
        '.' :: ' ' :: pyStrip (block.drop (findBodyPos block))
       else []) := by
  refine ⟨?_, rfl, rfl⟩
  rw [findBodyPos, boundaryLoop_eq_decl block (feInit block) (bodyCands block)
    (bodyCands_pairwise block)]

/-- C4 counterexample: on the flattened entry
`"ACME SL. Fe de erratas. Por error se omite"` the code cuts at the erratum
phrase, giving company name `"ACME SL"`, while the boundary rule as claimed
(first period-whitespace-capital-two-lowercase candidate with a
non-legal-form following word; `"Fe"` has only one lowercase letter, so the
first candidate sits before `"Por"`) gives `"ACME SL. Fe de erratas"`. -/
theorem c4_boundary_cex :
    empresaOf "ACME SL. Fe de erratas. Por error se omite".data = "ACME SL".data ∧
    claimedEmpresa "ACME SL. Fe de erratas. Por error se omite".data
      = "ACME SL. Fe de erratas".data ∧
    ¬ (empresaOf "ACME SL. Fe de erratas. Por error se omite".data
        = claimedEmpresa "ACME SL. Fe de erratas. Por error se omite".data) := by
  refine ⟨by decide, by decide, by decide⟩

-- ===================================================================
-- Officer/role extraction (C5)
-- ===================================================================

/-- `SECTION_MAP` (lines 157-163), in source (dict insertion) order. -/
def SECTION_MAP : List (String × String) :=
  [("Nombramientos", "nombramiento"),
   ("Ceses/Dimisiones", "cese"),
   ("Revocaciones", "revocacion"),
   ("Reelecciones", "reeleccion"),
   ("Cancelaciones de oficio de nombramientos", "cancelacion")]

/-- `CARGO_EXCLUDE` (lines 144-152). -/
def CARGO_EXCLUDE : List String :=
  ["Objeto social", "Domicilio", "Capital", "Datos registrales",
   "ACTIVIDAD PRINCIPAL", "Comienzo de operaciones",
   "Artículo de los estatutos", "ARTICULO",
   "Otros conceptos", "Sociedades absorbidas", "Resoluciones",
   "Denominación y forma adoptada"]

/-- The greatest index at which `p` holds below `n` (the value left in the
accumulator after scanning `0, ..., n-1`). -/
def lastSat (p : Nat → Bool) (n : Nat) : Option Nat :=
  (List.range n).foldl (fun acc i => if p i then some i else acc) none

/-- Model of `str.rfind(sub)` (found case as `some`): the greatest offset at
which `pat` occurs. -/
def rfindSub (cs pat : List Char) : Option Nat :=
  lastSat (fun i => occursAtL cs pat i) (cs.length + 1)

/-- Modelled from the claim wording: the greatest offset strictly below
`bound` at which `pat` occurs in the whole text. -/
def rfindBelow (cs pat : List Char) (bound : Nat) : Option Nat :=
  lastSat (fun i => occursAtL cs pat i && decide (i < bound)) (cs.length + 1)

/-- Python `max(iterable, key=...)` over `(tipo, position)` pairs: the first
element with the maximal position. -/
def maxByPos (l : List (String × Nat)) : Option (String × Nat) :=
  match l with
  | [] => none
  | x :: xs => some (xs.foldl (fun best y => if y.2 > best.2 then y else best) x)

/-- Step 1 of `_extract_cargo_and_tipo` (lines 221-224): does the stripped
label start with a section keyword followed by a period? -/
def sectionStartMatch (c : List Char) : Option (String × String) :=
  SECTION_MAP.find? fun kt =>
    startsWithL c (kt.1.data ++ ". ".data) || startsWithL c (kt.1.data ++ ".".data)

/-- The `positions` dict of lines 227-231, one `rfind` over `body[:mstart]`
per section keyword, in dict order. -/
def sectionPositions (pre : List Char) : List (String × Nat) :=
  SECTION_MAP.filterMap fun kt => (rfindSub pre kt.1.data).map fun pos => (kt.2, pos)

/-- Embedding of `_extract_cargo_and_tipo` (lines 218-234). -/
def _extract_cargo_and_tipo (rawCargo body : List Char) (matchStart : Nat) :
    List Char × String :=
  match sectionStartMatch (pyStrip rawCargo) with
  | some kt =>
      (pyStrip (dropLeadingAny ['.', ' ']
        (pyStrip ((pyStrip rawCargo).drop kt.1.data.length))), kt.2)
  | none =>
      match maxByPos (sectionPositions (body.take matchStart)) with
      | some tp => (pyStrip rawCargo, tp.1)
      | none => (pyStrip rawCargo, "nombramiento")

/-- Modelled from the claim wording: the `positions` built from occurrences
of the section keywords in the whole body at offsets strictly below the
match start. -/
def claimSectionPositions (body : List Char) (bound : Nat) : List (String × Nat) :=
  SECTION_MAP.filterMap fun kt =>
    (rfindBelow body kt.1.data bound).map fun pos => (kt.2, pos)

/-- Modelled from the claim wording: prefix rule first, else the action type
of the section-keyword occurrence with the greatest offset strictly below
the match start, else appointment. -/
def claimResolve (rawCargo body : List Char) (matchStart : Nat) :
    List Char × String :=
  match sectionStartMatch (pyStrip rawCargo) with
  | some kt =>
      (pyStrip (dropLeadingAny ['.', ' ']
        (pyStrip ((pyStrip rawCargo).drop kt.1.data.length))), kt.2)
  | none =>
      match maxByPos (claimSectionPositions body matchStart) with
      | some tp => (pyStrip rawCargo, tp.1)
      | none => (pyStrip rawCargo, "nombramiento")

-- `CARGO_RE` (lines 135-141) and the per-match filters

/-- `[A-Z]` (ASCII, the first character of the label group). -/
def isUpperAZ (c : Char) : Bool := 'A' ≤ c && c ≤ 'Z'

/-- The label-body class `[A-Za-záéíóúñ.\s/\-\d=]`. -/
def cargoLblCh (c : Char) : Bool :=
  ('A' ≤ c && c ≤ 'Z') || ('a' ≤ c && c ≤ 'z') || c = 'á' || c = 'é' ||
    c = 'í' || c = 'ó' || c = 'ú' || c = 'ñ' || c = '.' || isWsCh c ||
    c = '/' || c = '-' || isDigitCh c || c = '='

/-- The name-run class `[A-ZÁÉÍÓÚÑ\d\s;,.\-]`. -/
def cargoNameCh (c : Char) : Bool :=
  isCapCh c || isDigitCh c || isWsCh c || c = ';' || c = ',' || c = '.' ||
    c = '-'

/-- Lazy scan for the label group `[A-Z][A-Za-záéíóúñ.\s/\-\d=]\x7b0,25\x7d?`
followed by `:`.  `j` characters beyond the initial capital are validated;
the scan stops at the first colon (the colon is not in the class, so no
other split is reachable by backtracking). -/
def cargoLblScan (cs : List Char) (p : Nat) : Nat → Nat → Option Nat
  | _, 0 => none
  | j, fuel + 1 =>
      match cs.get? (p + 1 + j) with
      | some c =>
          if c = ':' then some (1 + j)
          else if cargoLblCh c && decide (j < 25) then
            cargoLblScan cs p (j + 1) fuel
          else none
      | none => none

/-- Lazy scan for the name group `[A-ZÁÉÍÓÚÑ][A-ZÁÉÍÓÚÑ\d\s;,.\-]+?` with
terminator `(?:\.\s|$)`: `g ≥ 2` characters are validated; at each step the
terminator alternation is tried (`\.\s` first, then `$`) before extending by
one class character.  Returns the group length and the match end. -/
def cargoG2Scan (cs : List Char) (q : Nat) : Nat → Nat → Option (Nat × Nat)
  | _, 0 => none
  | g, fuel + 1 =>
      if (match cs.get? (q + g), cs.get? (q + g + 1) with
          | some c, some w => decide (c = '.') && isWsCh w
          | _, _ => false) then some (g, q + g + 2)
      else if endAnchorAt cs (q + g) then some (g, q + g)
      else
        match cs.get? (q + g) with
        | some c =>
            if cargoNameCh c then cargoG2Scan cs q (g + 1) fuel else none
        | none => none

/-- One attempt of `CARGO_RE` at offset `p`: the zero-width lookbehind
`(?<=\.\s)`, the label group, the colon, a greedy whitespace run (it cannot
steal the capital that the name group requires), and the name group.
Returns (label capture, name capture, match end). -/
def cargoMatchAt (cs : List Char) (p : Nat) : Option (List Char × List Char × Nat) :=
  if 2 ≤ p &&
      (match cs.get? (p - 2), cs.get? (p - 1) with
       | some d, some w => decide (d = '.') && isWsCh w
       | _, _ => false) then
    match cs.get? p with
    | some c0 =>
        if isUpperAZ c0 then
          match cargoLblScan cs p 0 27 with
          | some lblLen =>
              match cs.get? (p + lblLen + 1 + wsRunFrom cs (p + lblLen + 1)) with
              | some c1 =>
                  if isCapCh c1 then
                    match cargoG2Scan cs
                        (p + lblLen + 1 + wsRunFrom cs (p + lblLen + 1)) 2
                        (cs.length + 1) with
                    | some gm =>
                        match cs.get? (p + lblLen + 1 + wsRunFrom cs (p + lblLen + 1) + 1) with
                        | some c2 =>
                            if cargoNameCh c2 then
                              some ((cs.drop p).take lblLen,
                                ((cs.drop (p + lblLen + 1 +
                                  wsRunFrom cs (p + lblLen + 1))).take gm.1),
                                gm.2)
                            else none
                        | none => none
                    | none => none
                  else none
              | none => none
          | none => none
        else none
    | none => none
  else none

/-- The `finditer` scan for `CARGO_RE`: try each position, jump over a
match.  Emits (label, names, match start) triples in order. -/
def cargoScan (cs : List Char) : Nat → Nat → List (List Char × List Char × Nat)
  | _, 0 => []
  | p, fuel + 1 =>
      if p > cs.length then []
      else
        match cargoMatchAt cs p with
        | some m => (m.1, m.2.1, p) :: cargoScan cs m.2.2 fuel
        | none => cargoScan cs (p + 1) fuel

def cargoMatches (body : List Char) : List (List Char × List Char × Nat) :=
  cargoScan body 0 (body.length + 2)

/-- `[\s.\d,]`, the run class of the article-exclusion pattern. -/
def artClassCh (c : Char) : Bool :=
  isWsCh c || c = '.' || isDigitCh c || c = ','

/-- Case-insensitive literal prefix test (the pattern literals are
upper-case ASCII). -/
def startsWithIC (cs : List Char) (pat : String) : Bool :=
  decide ((cs.take pat.length).map upperChar = pat.data)

/-- `CARGO_EXCLUDE_RE = ^(?:ART(?:ICULO|S)?[\s.\d,]+|CNAE\s|ACTIVIDAD)`,
IGNORECASE, via `re.match`: a match exists iff one of the alternation
branches matches at the start. -/
def cargoExcludeMatch (cs : List Char) : Bool :=
  (startsWithIC cs "ARTICULO" && decide (1 ≤ ((cs.drop 8).takeWhile artClassCh).length)) ||
  (startsWithIC cs "ARTS" && decide (1 ≤ ((cs.drop 4).takeWhile artClassCh).length)) ||
  (startsWithIC cs "ART" && decide (1 ≤ ((cs.drop 3).takeWhile artClassCh).length)) ||
  (startsWithIC cs "CNAE" &&
    (match cs.get? 4 with | some c => isWsCh c | none => false)) ||
  startsWithIC cs "ACTIVIDAD"

/-- `str.split()` (whitespace runs, empties dropped). -/
def splitWsGo : Nat → List Char → List (List Char)
  | 0, _ => []
  | fuel + 1, cs =>
      match cs.dropWhile isWsCh with
      | [] => []
      | c :: t =>
          ((c :: t).takeWhile fun d => !isWsCh d) ::
            splitWsGo fuel ((c :: t).dropWhile fun d => !isWsCh d)

def pySplitWs (cs : List Char) : List (List Char) :=
  splitWsGo (cs.length + 1) cs

/-- `str.split(sep)` for a one-character separator (empties kept). -/
def splitOnCh (sep : Char) (cs : List Char) : List (List Char) :=
  cs.foldr
    (fun c acc =>
      if c = sep then [] :: acc
      else
        match acc with
        | h :: t => (c :: h) :: t
        | [] => [[c]])
    [[]]

/-- The word-count guard of lines 385-388: tokens of the name run after
replacing `;` and `.` by spaces, keeping those longer than one character. -/
def personaWords (personasRaw : List Char) : List (List Char) :=
  pySplitWs (personasRaw.map fun c => if c = ';' then ' ' else if c = '.' then ' ' else c)

/-- `[p.strip() for p in personas_raw.split(";") if p.strip()]` (line 394). -/
def personasOf (personasRaw : List Char) : List (List Char) :=
  (splitOnCh ';' personasRaw).filterMap fun p =>
    if pyStrip p = [] then none else some (pyStrip p)

/-- The per-entry constants a cargo row copies (lines 396-407). -/
structure EntryCtx where
  fecha_borme : String
  num_entrada : String
  empresa : String
  empresa_norm : String
  provincia : String
  hoja_registral : String
  pdf_filename : String
deriving DecidableEq

/-- One officer/role row (lines 396-407). -/
structure CargoRow where
  fecha_borme : String
  num_entrada : String
  empresa : String
  empresa_norm : String
  provincia : String
  hoja_registral : String
  tipo_acto : String
  cargo : String
  persona : String
  pdf_filename : String
deriving DecidableEq

def mkCargoRow (ctx : EntryCtx) (tipoActo : String) (cargo persona : List Char) :
    CargoRow :=
  { fecha_borme := ctx.fecha_borme, num_entrada := ctx.num_entrada,
    empresa := ctx.empresa, empresa_norm := ctx.empresa_norm,
    provincia := ctx.provincia, hoja_registral := ctx.hoja_registral,
    tipo_acto := tipoActo, cargo := ⟨cargo⟩, persona := ⟨persona⟩,
    pdf_filename := ctx.pdf_filename }

/-- Processing of one `CARGO_RE` match (lines 376-407): strip the captures,
apply the stoplist, pattern and word-count guards, resolve role and action
type, re-check the resolved role, then emit one row per semicolon-separated
person. -/
def cargoRowsForMatch (ctx : EntryCtx) (body g1 g2 : List Char) (mstart : Nat) :
    List CargoRow :=
  if CARGO_EXCLUDE.contains ⟨pyStrip g1⟩ then []
  else if cargoExcludeMatch (pyStrip g1) then []
  else if ((personaWords (pyStrip g2)).filter fun w => 2 ≤ w.length).length < 2 then []
  else
    if (_extract_cargo_and_tipo (pyStrip g1) body mstart).1 = [] ||
        CARGO_EXCLUDE.contains ⟨(_extract_cargo_and_tipo (pyStrip g1) body mstart).1⟩ ||
        cargoExcludeMatch (_extract_cargo_and_tipo (pyStrip g1) body mstart).1 then []
    else
      (personasOf (pyStrip g2)).map
        (mkCargoRow ctx (_extract_cargo_and_tipo (pyStrip g1) body mstart).2
          (_extract_cargo_and_tipo (pyStrip g1) body mstart).1)

/-- All cargo rows of one body (the loop of line 376). -/
def cargosOfBody (ctx : EntryCtx) (body : List Char) : List CargoRow :=
  (cargoMatches body).flatMap fun m => cargoRowsForMatch ctx body m.1 m.2.1 m.2.2

example :
    cargoMatches ". Nombramientos. Adm. Unico: JOHN SMITH DOE. Datos registrales. T 1.".data
      = [("Nombramientos. Adm. Unico".data, "JOHN SMITH DOE".data, 2)] := by
  decide

example :
    _extract_cargo_and_tipo "Nombramientos. Adm. Unico".data
      ". Nombramientos. Adm. Unico: JOHN SMITH DOE. Datos registrales. T 1.".data 2
      = ("Adm. Unico".data, "nombramiento") := by
  decide

-- C5 equivalence: truncated-rfind resolution = greatest-offset-below rule

theorem occursAtL_get {cs pat : List Char} {i : Nat}
    (h : occursAtL cs pat i = true) {j : Nat} (hj : j < pat.length) :
    cs.get? (i + j) = pat.get? j := by
  simp only [occursAtL, startsWithL, Bool.and_eq_true, decide_eq_true_eq] at h
  obtain ⟨hlen, htake⟩ := h
  have : ((cs.drop i).take pat.length).get? j = pat.get? j := by rw [htake]
  rw [List.get?_take hj, List.get?_drop] at this
  exact this

theorem occursAtL_length {cs pat : List Char} {i : Nat}
    (h : occursAtL cs pat i = true) : i + pat.length ≤ cs.length := by
  simp only [occursAtL, Bool.and_eq_true, decide_eq_true_eq] at h
  exact h.1

theorem occursAtL_false_of_long {cs pat : List Char} {i : Nat}
    (h : cs.length < i + pat.length) : occursAtL cs pat i = false := by
  cases ho : occursAtL cs pat i with
  | false => rfl
  | true => exact absurd (occursAtL_length ho) (by omega)

/-- No section keyword can straddle the match start: right before the match
start sit a whitespace character and, one earlier, a period, while the
keywords contain no period and start with a non-whitespace character. -/
theorem occursAt_no_straddle {body kw : List Char} {bound i : Nat}
    (hkdot : ∀ c ∈ kw, ¬ c = '.')
    (hkhead : ∀ c, kw.get? 0 = some c → isWsCh c = false)
    (hklen : 1 ≤ kw.length)
    (hdot : body.get? (bound - 2) = some '.')
    (hws : ∃ w, body.get? (bound - 1) = some w ∧ isWsCh w = true)
    (h2 : 2 ≤ bound)
    (hocc : occursAtL body kw i = true) (hi : i < bound) :
    i + kw.length ≤ bound := by
  by_contra hcon
  push_neg at hcon
  by_cases hcase : i = bound - 1
  · obtain ⟨w, hw, hwws⟩ := hws
    have h0 := occursAtL_get hocc (j := 0) (by omega)
    rw [Nat.add_zero, hcase, hw] at h0
    cases hk0 : kw.get? 0 with
    | none => rw [hk0] at h0; exact absurd h0 (by simp)
    | some c =>
        rw [hk0] at h0
        have : w = c := by simpa using h0
        rw [this] at hwws
        rw [hkhead c hk0] at hwws
        exact absurd hwws (by simp)
  · have hile : i ≤ bound - 2 := by omega
    have hjlt : bound - 2 - i < kw.length := by omega
    have h0 := occursAtL_get hocc (j := bound - 2 - i) hjlt
    have harith : i + (bound - 2 - i) = bound - 2 := by omega
    rw [harith, hdot] at h0
    cases hk0 : kw.get? (bound - 2 - i) with
    | none => rw [hk0] at h0; exact absurd h0 (by simp)
    | some c =>
        rw [hk0] at h0
        have hc : c = '.' := by simpa using h0.symm
        exact hkdot c (List.get?_mem hk0) hc

theorem occursAtL_of_take {body kw : List Char} {bound i : Nat}
    (hklen : 1 ≤ kw.length)
    (hocc : occursAtL (body.take bound) kw i = true) :
    occursAtL body kw i = true ∧ i < bound := by
  simp only [occursAtL, startsWithL, Bool.and_eq_true, decide_eq_true_eq] at hocc ⊢
  obtain ⟨hlen, htake⟩ := hocc
  rw [List.length_take] at hlen
  have hib : i + kw.length ≤ bound := by omega
  have hil : i + kw.length ≤ body.length := by omega
  refine ⟨⟨hil, ?_⟩, by omega⟩
  rw [List.drop_take, List.take_take] at htake
  rwa [min_eq_left (by omega)] at htake

theorem occursAtL_take_of {body kw : List Char} {bound i : Nat}
    (hocc : occursAtL body kw i = true) (hle : i + kw.length ≤ bound) :
    occursAtL (body.take bound) kw i = true := by
  simp only [occursAtL, startsWithL, Bool.and_eq_true, decide_eq_true_eq] at hocc ⊢
  obtain ⟨hlen, htake⟩ := hocc
  constructor
  · rw [List.length_take]
    omega
  · rw [List.drop_take, List.take_take, min_eq_left (by omega)]
    exact htake

theorem lastSat_congr {p q : Nat → Bool} {n : Nat} (h : ∀ i, i < n → p i = q i) :
    lastSat p n = lastSat q n := by
  induction n with
  | zero => rfl
  | succ m ih =>
      rw [lastSat, lastSat, List.range_succ, List.foldl_append, List.foldl_append]
      simp only [List.foldl_cons, List.foldl_nil]
      rw [← lastSat, ← lastSat, ih (fun i hi => h i (by omega)), h m (by omega)]

theorem lastSat_extend {p : Nat → Bool} {n m : Nat} (hnm : n ≤ m)
    (h : ∀ i, n ≤ i → i < m → p i = false) : lastSat p m = lastSat p n := by
  induction m with
  | zero =>
      have : n = 0 := by omega
      rw [this]
  | succ k ih =>
      by_cases hk : n = k + 1
      · rw [hk]
      · have hnk : n ≤ k := by omega
        rw [lastSat, List.range_succ, List.foldl_append]
        simp only [List.foldl_cons, List.foldl_nil]
        rw [h k (by omega) (by omega)]
        exact ih hnk (fun i hi1 hi2 => h i hi1 (by omega))

theorem rfind_take_eq {body kw : List Char} {bound : Nat}
    (hkdot : ∀ c ∈ kw, ¬ c = '.')
    (hkhead : ∀ c, kw.get? 0 = some c → isWsCh c = false)
    (hklen : 1 ≤ kw.length)
    (hdot : body.get? (bound - 2) = some '.')
    (hws : ∃ w, body.get? (bound - 1) = some w ∧ isWsCh w = true)
    (h2 : 2 ≤ bound) :
    rfindSub (body.take bound) kw = rfindBelow body kw bound := by
  rw [rfindSub, rfindBelow, List.length_take]
  have hstep1 :
      lastSat (fun i => occursAtL body kw i && decide (i < bound)) (body.length + 1)
        = lastSat (fun i => occursAtL body kw i && decide (i < bound))
            (min bound body.length + 1) := by
    apply lastSat_extend (by omega)
    intro i hi1 hi2
    by_cases hc : bound ≤ body.length
    · have : ¬ i < bound := by omega
      simp [this]
    · have : body.length < i + kw.length := by omega
      simp [occursAtL_false_of_long this]
  rw [hstep1]
  apply lastSat_congr
  intro i hi
  cases hq : (occursAtL body kw i && decide (i < bound)) with
  | true =>
      simp only [Bool.and_eq_true, decide_eq_true_eq] at hq
      exact occursAtL_take_of hq.1
        (occursAt_no_straddle hkdot hkhead hklen hdot hws h2 hq.1 hq.2)
  | false =>
      cases hp : occursAtL (body.take bound) kw i with
      | false => rfl
      | true =>
          obtain ⟨h1, h2'⟩ := occursAtL_of_take hklen hp
          rw [h1, decide_eq_true h2'] at hq
          exact absurd hq (by simp)

theorem section_kw_facts : ∀ kt ∈ SECTION_MAP,
    (∀ c ∈ (kt.1 : String).data, ¬ c = '.') ∧
    (∀ c, (kt.1 : String).data.get? 0 = some c → isWsCh c = false) ∧
    1 ≤ (kt.1 : String).data.length := by
  decide

theorem sectionPositions_eq_claim {body : List Char} {mstart : Nat}
    (h2 : 2 ≤ mstart)
    (hdot : body.get? (mstart - 2) = some '.')
    (hws : ∃ w, body.get? (mstart - 1) = some w ∧ isWsCh w = true) :
    sectionPositions (body.take mstart) = claimSectionPositions body mstart := by
  rw [sectionPositions, claimSectionPositions]
  apply List.filterMap_congr
  intro kt hkt
  obtain ⟨hk1, hk2, hk3⟩ := section_kw_facts kt hkt
  rw [rfind_take_eq hk1 hk2 hk3 hdot hws h2]

/-- C5: for every officer/role match (its start is preceded by a period and
one whitespace character, the `CARGO_RE` lookbehind), the action type and
role resolve exactly as the claim states: a section prefix of the label is
stripped and gives its section action type; otherwise the section-keyword
occurrence with the greatest offset strictly below the match start decides;
otherwise appointment.  And when a match passes the stoplist, the pattern
exclusion, the word-count guard and the resolved-role re-check, one row per
semicolon-separated person is emitted, all sharing the resolved role and
action type. -/
theorem c5_officer_resolution_and_emission
    (ctx : EntryCtx) (rawCargo personasRaw body : List Char) (mstart : Nat)
    (h2 : 2 ≤ mstart)
    (hdot : body.get? (mstart - 2) = some '.')
    (hws : ∃ w, body.get? (mstart - 1) = some w ∧ isWsCh w = true) :
    _extract_cargo_and_tipo rawCargo body mstart = claimResolve rawCargo body mstart ∧
    (CARGO_EXCLUDE.contains ⟨pyStrip rawCargo⟩ = false →
     cargoExcludeMatch (pyStrip rawCargo) = false →
     ¬ ((personaWords (pyStrip personasRaw)).filter fun w => 2 ≤ w.length).length < 2 →
     ((_extract_cargo_and_tipo (pyStrip rawCargo) body mstart).1 = [] ||
       CARGO_EXCLUDE.contains ⟨(_extract_cargo_and_tipo (pyStrip rawCargo) body mstart).1⟩ ||
       cargoExcludeMatch (_extract_cargo_and_tipo (pyStrip rawCargo) body mstart).1) = false →
     cargoRowsForMatch ctx body rawCargo personasRaw mstart =
       (personasOf (pyStrip personasRaw)).map
         (mkCargoRow ctx (_extract_cargo_and_tipo (pyStrip rawCargo) body mstart).2
           (_extract_cargo_and_tipo (pyStrip rawCargo) body mstart).1)) := by
  constructor
  · rw [_extract_cargo_and_tipo, claimResolve,
      sectionPositions_eq_claim h2 hdot hws]
  · intro hg1 hg2 hwc hre
    rw [cargoRowsForMatch, if_neg (by rw [hg1]; simp), if_neg (by rw [hg2]; simp),
      if_neg hwc, if_neg (by rw [hre]; simp)]

/-- Witness for `c5_officer_resolution_and_emission` at the specification's
own example body: exactly one officer row, role `"Adm. Unico"`, action type
appointment, person `"JOHN SMITH DOE"`. -/
theorem c5_officer_resolution_and_emission_witness :
    _extract_cargo_and_tipo "Nombramientos. Adm. Unico".data
        ". Nombramientos. Adm. Unico: JOHN SMITH DOE. Datos registrales. T 1.".data 2
      = claimResolve "Nombramientos. Adm. Unico".data
        ". Nombramientos. Adm. Unico: JOHN SMITH DOE. Datos registrales. T 1.".data 2 ∧
    cargoRowsForMatch ⟨"", "", "", "", "", "", ""⟩
        ". Nombramientos. Adm. Unico: JOHN SMITH DOE. Datos registrales. T 1.".data
        "Nombramientos. Adm. Unico".data "JOHN SMITH DOE".data 2
      = [⟨"", "", "", "", "", "", "nombramiento", "Adm. Unico", "JOHN SMITH DOE", ""⟩] := by
  have h := c5_officer_resolution_and_emission ⟨"", "", "", "", "", "", ""⟩
    "Nombramientos. Adm. Unico".data "JOHN SMITH DOE".data
    ". Nombramientos. Adm. Unico: JOHN SMITH DOE. Datos registrales. T 1.".data 2
    (by decide) (by decide) ⟨' ', by decide, by decide⟩
  refine ⟨h.1, ?_⟩
  rw [h.2 (by decide) (by decide) (by decide) (by decide)]
  decide

-- ===================================================================
-- Deduplication/aggregation (C6)
-- ===================================================================

/-- One company row (lines 320-373).  Optional fields model keys that the
source sets only conditionally; `actos` holds the `"|"`-joined act list;
`capital_euros` holds the parsed decimal value as an exact rational. -/
structure EmpresaRow where
  fecha_borme : String
  num_borme : Nat
  num_entrada : String
  empresa : String
  empresa_norm : String
  provincia : String
  cod_provincia : String
  tipo_borme : String
  pdf_filename : String
  fecha_constitucion : Option String
  objeto_social : Option String
  domicilio : Option String
  capital_euros : Option ℚ
  actos : String
  hoja_registral : Option String
  tomo : Option String
  inscripcion : Option String
  fecha_inscripcion : Option String
deriving DecidableEq

def seenHas {κ : Type} [DecidableEq κ] (seen : List κ) (k : κ) : Bool :=
  seen.any fun s => decide (s = k)

/-- Model of `pandas.DataFrame.drop_duplicates(subset=key, keep="first")`:
scan in order, keep a row iff its key was not seen before. -/
def dropDupByGo {α κ : Type} [DecidableEq κ] (key : α → κ) (seen : List κ) :
    List α → List α
  | [] => []
  | x :: xs =>
      if seenHas seen (key x) then dropDupByGo key seen xs
      else x :: dropDupByGo key (key x :: seen) xs

def dropDupBy {α κ : Type} [DecidableEq κ] (key : α → κ) (l : List α) : List α :=
  dropDupByGo key [] l

/-- The keys seen after scanning `l` starting from `seen`. -/
def seenAfter {α κ : Type} [DecidableEq κ] (key : α → κ) (seen : List κ)
    (l : List α) : List κ :=
  l.foldl (fun s x => if seenHas s (key x) then s else key x :: s) seen

/-- The natural key of the company dedup
(`subset=["fecha_borme", "num_entrada", "empresa_norm"]`, lines 509-511). -/
def empresaKey (r : EmpresaRow) : String × String × String :=
  (r.fecha_borme, r.num_entrada, r.empresa_norm)

/-- The natural key of the officer dedup (`subset=["fecha_borme",
"num_entrada", "cargo", "persona", "tipo_acto"]`, lines 520-523). -/
def cargoKey (r : CargoRow) : String × String × String × String × String :=
  (r.fecha_borme, r.num_entrada, r.cargo, r.persona, r.tipo_acto)

theorem mem_seenAfter {α κ : Type} [DecidableEq κ] (key : α → κ) :
    ∀ (l : List α) (seen : List κ) (k : κ),
      k ∈ seenAfter key seen l ↔ k ∈ seen ∨ ∃ x ∈ l, key x = k := by
  intro l
  induction l with
  | nil => intro seen k; simp [seenAfter]
  | cons x xs ih =>
      intro seen k
      rw [seenAfter, List.foldl_cons, ← seenAfter]
      by_cases hx : seenHas seen (key x) = true
      · rw [if_pos hx]
        rw [ih]
        simp only [seenHas, List.any_eq_true, decide_eq_true_eq] at hx
        obtain ⟨s, hs, hsk⟩ := hx
        constructor
        · rintro (h | h)
          · exact Or.inl h
          · exact Or.inr (by obtain ⟨y, hy, hk⟩ := h; exact ⟨y, by simp [hy], hk⟩)
        · rintro (h | ⟨y, hy, hk⟩)
          · exact Or.inl h
          · rcases List.mem_cons.mp hy with rfl | hy2
            · exact Or.inl (by rw [← hk, ← hsk]; exact hs)
            · exact Or.inr ⟨y, hy2, hk⟩
      · rw [if_neg hx]
        rw [ih]
        constructor
        · rintro (h | h)
          · rcases List.mem_cons.mp h with rfl | h2
            · exact Or.inr ⟨x, by simp, rfl⟩
            · exact Or.inl h2
          · exact Or.inr (by obtain ⟨y, hy, hk⟩ := h; exact ⟨y, by simp [hy], hk⟩)
        · rintro (h | ⟨y, hy, hk⟩)
          · exact Or.inl (by simp [h])
          · rcases List.mem_cons.mp hy with rfl | hy2
            · exact Or.inl (by simp [hk])
            · exact Or.inr ⟨y, hy2, hk⟩

theorem dropDupByGo_append {α κ : Type} [DecidableEq κ] (key : α → κ) :
    ∀ (l₁ l₂ : List α) (seen : List κ),
      dropDupByGo key seen (l₁ ++ l₂) =
        dropDupByGo key seen l₁ ++ dropDupByGo key (seenAfter key seen l₁) l₂ := by
  intro l₁
  induction l₁ with
  | nil => intro l₂ seen; simp [dropDupByGo, seenAfter]
  | cons x xs ih =>
      intro l₂ seen
      simp only [List.cons_append, dropDupByGo, List.append_eq]
      by_cases hx : seenHas seen (key x) = true
      · rw [if_pos hx, if_pos hx, ih]
        have : seenAfter key seen (x :: xs) = seenAfter key seen xs := by
          rw [seenAfter, List.foldl_cons, if_pos hx, ← seenAfter]
        rw [this]
      · rw [if_neg hx, if_neg hx, ih]
        have : seenAfter key seen (x :: xs) = seenAfter key (key x :: seen) xs := by
          rw [seenAfter, List.foldl_cons, if_neg hx, ← seenAfter]
        rw [this]
        simp

theorem dropDupByGo_all_seen {α κ : Type} [DecidableEq κ] (key : α → κ) :
    ∀ (l : List α) (seen : List κ),
      (∀ x ∈ l, key x ∈ seen) → dropDupByGo key seen l = [] := by
  intro l
  induction l with
  | nil => intro seen _; rfl
  | cons x xs ih =>
      intro seen h
      rw [dropDupByGo]
      have hx : seenHas seen (key x) = true := by
        simp only [seenHas, List.any_eq_true, decide_eq_true_eq]
        exact ⟨key x, h x (by simp), rfl⟩
      rw [if_pos hx]
      exact ih seen fun y hy => h y (by simp [hy])

theorem dropDupBy_append_self {α κ : Type} [DecidableEq κ] (key : α → κ)
    (l : List α) : dropDupBy key (l ++ l) = dropDupBy key l := by
  rw [dropDupBy, dropDupByGo_append]
  have h0 : dropDupByGo key (seenAfter key [] l) l = [] :=
    dropDupByGo_all_seen key l _
      (fun x hx => (mem_seenAfter key l [] (key x)).mpr (Or.inr ⟨x, hx, rfl⟩))
  rw [h0, List.append_nil, ← dropDupBy]

theorem dropDupByGo_filter_key {α κ : Type} [DecidableEq κ] (key : α → κ) :
    ∀ (l : List α) (seen : List κ) (k : κ),
      (dropDupByGo key seen l).filter (fun r => decide (key r = k)) =
        (if k ∈ seen then []
         else ((l.filter fun r => decide (key r = k)).head?).toList) := by
  intro l
  induction l with
  | nil =>
      intro seen k
      by_cases h : k ∈ seen
      · simp [dropDupByGo, h]
      · simp [dropDupByGo, h]
  | cons x xs ih =>
      intro seen k
      rw [dropDupByGo]
      by_cases hx : seenHas seen (key x) = true
      · rw [if_pos hx, ih]
        simp only [seenHas, List.any_eq_true, decide_eq_true_eq] at hx
        by_cases hk : k ∈ seen
        · rw [if_pos hk, if_pos hk]
        · rw [if_neg hk, if_neg hk]
          have hxk : ¬ key x = k := by
            rintro rfl
            obtain ⟨s, hs, hsk⟩ := hx
            exact hk (hsk ▸ hs)
          rw [List.filter_cons, if_neg (by simpa using hxk)]
      · rw [if_neg hx, List.filter_cons]
        by_cases hxk : key x = k
        · rw [if_pos (by simpa using hxk), ih]
          have hk : ¬ k ∈ seen := by
            rintro hk
            simp only [seenHas, List.any_eq_true, decide_eq_true_eq] at hx
            exact hx ⟨k, hk, hxk.symm⟩
          rw [if_pos (by simp [hxk]), if_neg hk]
          rw [List.filter_cons, if_pos (by simpa using hxk)]
          simp
        · rw [if_neg (by simpa using hxk), ih]
          have : (k ∈ key x :: seen) ↔ k ∈ seen := by
            simp only [List.mem_cons]
            constructor
            · rintro (rfl | h)
              · exact absurd rfl hxk
              · exact h
            · exact Or.inr
          by_cases hk : k ∈ seen
          · rw [if_pos (this.mpr hk), if_pos hk]
          · rw [if_neg (fun hc => hk (this.mp hc)), if_neg hk]
            rw [List.filter_cons, if_neg (by simpa using hxk)]

theorem dropDupBy_filter_key {α κ : Type} [DecidableEq κ] (key : α → κ)
    (l : List α) (k : κ) :
    (dropDupBy key l).filter (fun r => decide (key r = k)) =
      ((l.filter fun r => decide (key r = k)).head?).toList := by
  rw [dropDupBy, dropDupByGo_filter_key]
  simp

/-- C6: aggregation is idempotent and first-occurrence-wins.  Company rows
are deduplicated by (bulletin date, entry number, normalized name) and
officer rows by (bulletin date, entry number, role, person, action type);
feeding the same rows twice changes nothing, and for every key value the
deduplicated output holds exactly the first input row of that key. -/
theorem c6_dedup_idempotent_first_wins
    (es : List EmpresaRow) (cs : List CargoRow) :
    dropDupBy empresaKey (es ++ es) = dropDupBy empresaKey es ∧
    dropDupBy cargoKey (cs ++ cs) = dropDupBy cargoKey cs ∧
    (∀ k, (dropDupBy empresaKey es).filter (fun r => decide (empresaKey r = k)) =
      ((es.filter fun r => decide (empresaKey r = k)).head?).toList) ∧
    (∀ k, (dropDupBy cargoKey cs).filter (fun r => decide (cargoKey r = k)) =
      ((cs.filter fun r => decide (cargoKey r = k)).head?).toList) :=
  ⟨dropDupBy_append_self _ _, dropDupBy_append_self _ _,
    fun k => dropDupBy_filter_key _ _ k, fun k => dropDupBy_filter_key _ _ k⟩

-- ===================================================================
-- Registry coordinates (C7): `DATOS_REG_RE`, all-or-nothing
-- ===================================================================

def skipWsAt (cs : List Char) (i : Nat) : Nat := i + wsRunFrom cs i

def expectCh (cs : List Char) (i : Nat) (c : Char) : Option Nat :=
  if cs.get? i = some c then some (i + 1) else none

/-- A maximal nonempty digit run (`(\d+)` before a non-digit anchor is
deterministic: giving a digit back leaves a digit where the anchor must
match). -/
def parseDigits (cs : List Char) (i : Nat) : Option (List Char × Nat) :=
  match (cs.drop i).takeWhile isDigitCh with
  | [] => none
  | d :: ds => some (d :: ds, i + (d :: ds).length)

/-- `\s*<lbl>\s*(\d+),` -/
def numField (cs : List Char) (i : Nat) (lbl : Char) : Option (List Char × Nat) := do
  let i1 ← expectCh cs (skipWsAt cs i) lbl
  let (d, i2) ← parseDigits cs (skipWsAt cs i1)
  let i3 ← expectCh cs i2 ','
  pure (d, i3)

/-- `\s*H\s*([A-Z\s]*\d+),`: the greedy class run (capitals and whitespace)
followed by a digit run is deterministic because neither class contains the
other's characters nor the comma. -/
def hojaField (cs : List Char) (i : Nat) : Option (List Char × Nat) := do
  let i1 ← expectCh cs (skipWsAt cs i) 'H'
  let cls := (cs.drop (skipWsAt cs i1)).takeWhile
    fun c => ('A' ≤ c && c ≤ 'Z') || isWsCh c
  let (d, i2) ← parseDigits cs (skipWsAt cs i1 + cls.length)
  let i3 ← expectCh cs i2 ','
  pure (cls ++ d, i3)

/-- `n` digits exactly at `i`. -/
def digitsExactly (cs : List Char) (i n : Nat) : Bool :=
  decide (((cs.drop i).take n).length = n) && ((cs.drop i).take n).all isDigitCh

/-- `(\d{1,2}\.\d{2}\.\d{2,4})\)`: the greedy bounded repetitions backtrack
against the literal period and closing parenthesis; since a period and a
parenthesis are not digits, at most one repetition count can go through at
each step, tried longest first.  Returns the date capture. -/
def dateGroup (cs : List Char) (i : Nat) : Option (List Char) := do
  let k ←
    (if digitsExactly cs i 2 && decide (cs.get? (i + 2) = some '.') then some 2
     else if digitsExactly cs i 1 && decide (cs.get? (i + 1) = some '.') then some 1
     else none)
  let j := i + k + 1
  if digitsExactly cs j 2 && decide (cs.get? (j + 2) = some '.') then
    let j2 := j + 3
    let m ←
      (if digitsExactly cs j2 4 && decide (cs.get? (j2 + 4) = some ')') then some 4
       else if digitsExactly cs j2 3 && decide (cs.get? (j2 + 3) = some ')') then some 3
       else if digitsExactly cs j2 2 && decide (cs.get? (j2 + 2) = some ')') then some 2
       else none)
    pure ((cs.drop i).take (k + 3 + 1 + m))
  else none

/-- The seven captures of `DATOS_REG_RE` (lines 165-167). -/
structure DatosReg where
  tomo : List Char
  libro : List Char
  folio : List Char
  seccion : List Char
  hoja : List Char
  inscripcion : List Char
  fecha : List Char
deriving DecidableEq

/-- One attempt of `DATOS_REG_RE` at offset `p`. -/
def datosTryAt (cs : List Char) (p : Nat) : Option DatosReg :=
  if occursAtL cs "Datos registrales".data p then
    match cs.get? (p + 17) with
    | some c =>
        if decide (c = '.') || decide (c = ':') then do
          let (d1, i1) ← numField cs (p + 18) 'T'
          let (d2, i2) ← numField cs i1 'L'
          let (d3, i3) ← numField cs i2 'F'
          let (d4, i4) ← numField cs i3 'S'
          let (h5, i5) ← hojaField cs i4
          let i6 ← expectCh cs (skipWsAt cs i5) 'I'
          let i7 ← expectCh cs i6 '/'
          let i8 ← expectCh cs i7 'A'
          let (d6, i9) ← parseDigits cs (skipWsAt cs i8)
          let i10 ← expectCh cs (skipWsAt cs i9) '('
          let fecha ← dateGroup cs i10
          pure ⟨d1, d2, d3, d4, h5, d6, fecha⟩
        else none
    | none => none
  else none

/-- `DATOS_REG_RE.search(body)` (line 366). -/
def datosSearch (body : List Char) : Option DatosReg :=
  scanOption (datosTryAt body) 0 (body.length + 1)

/-- Lines 366-371: on a match, set the four registry fields from the
captures; otherwise leave the row untouched. -/
def applyDatosReg (row : EmpresaRow) (body : List Char) : EmpresaRow :=
  match datosSearch body with
  | none => row
  | some d =>
      { row with
        hoja_registral := some ⟨pyStrip d.hoja⟩
        tomo := some ⟨d.tomo⟩
        inscripcion := some ⟨d.inscripcion⟩
        fecha_inscripcion := some ⟨d.fecha⟩ }

/-- C7: registry-coordinate extraction is all-or-nothing.  Starting from a
row with no registry field set, either the anchored pattern fails and every
registry field stays unset, or it matches completely and all four stored
registry fields are set from its captures.  A well-formed block parses all
six positional tokens plus the date; removing one token (the `I/A` entry
below) kills the whole block. -/
theorem c7_registry_all_or_nothing :
    (∀ (row : EmpresaRow) (body : List Char),
      row.tomo = none → row.hoja_registral = none → row.inscripcion = none →
      row.fecha_inscripcion = none →
      ((applyDatosReg row body).tomo = none ∧
       (applyDatosReg row body).hoja_registral = none ∧
       (applyDatosReg row body).inscripcion = none ∧
       (applyDatosReg row body).fecha_inscripcion = none) ∨
      (∃ d, datosSearch body = some d ∧
       (applyDatosReg row body).tomo = some ⟨d.tomo⟩ ∧
       (applyDatosReg row body).hoja_registral = some ⟨pyStrip d.hoja⟩ ∧
       (applyDatosReg row body).inscripcion = some ⟨d.inscripcion⟩ ∧
       (applyDatosReg row body).fecha_inscripcion = some ⟨d.fecha⟩)) ∧
    datosSearch ". Datos registrales. T 1234, L 56, F 78, S 8, H AB 12345, I/A 3 (12.05.23).".data
      = some ⟨"1234".data, "56".data, "78".data, "8".data, "AB 12345".data,
          "3".data, "12.05.23".data⟩ ∧
    datosSearch ". Datos registrales. T 1234, L 56, F 78, S 8, H AB 12345 (12.05.23).".data
      = none := by
  refine ⟨?_, by decide, by decide⟩
  intro row body h1 h2 h3 h4
  rw [applyDatosReg]
  cases hd : datosSearch body with
  | none => exact Or.inl ⟨h1, h2, h3, h4⟩
  | some d => exact Or.inr ⟨d, rfl, rfl, rfl, rfl, rfl⟩

/-- Witness for `c7_registry_all_or_nothing` at a concrete empty-fields row
and the well-formed block. -/
theorem c7_registry_all_or_nothing_witness :
    ((applyDatosReg
        ⟨"", 0, "", "", "", "", "", "", "", none, none, none, none, "", none,
          none, none, none⟩
        ". Datos registrales. T 1234, L 56, F 78, S 8, H AB 12345, I/A 3 (12.05.23).".data).tomo
      = some "1234" ∧
     (applyDatosReg
        ⟨"", 0, "", "", "", "", "", "", "", none, none, none, none, "", none,
          none, none, none⟩
        ". Datos registrales. T 1234, L 56, F 78, S 8, H AB 12345, I/A 3 (12.05.23).".data).hoja_registral
      = some "AB 12345") := by
  have h := (c7_registry_all_or_nothing).1
    ⟨"", 0, "", "", "", "", "", "", "", none, none, none, none, "", none,
      none, none, none⟩
    ". Datos registrales. T 1234, L 56, F 78, S 8, H AB 12345, I/A 3 (12.05.23).".data
    rfl rfl rfl rfl
  rcases h with ⟨ht, _, _, _⟩ | ⟨d, hd, ht, hh, _, _⟩
  · exact absurd ht (by decide)
  · have hdval : d = ⟨"1234".data, "56".data, "78".data, "8".data,
        "AB 12345".data, "3".data, "12.05.23".data⟩ := by
      have := (c7_registry_all_or_nothing).2.1
      rw [hd] at this
      exact Option.some.inj this
    subst hdval
    exact ⟨by rw [ht], by rw [hh]; decide⟩

-- ===================================================================
-- Capital extraction (C8): `CAPITAL_RE` plus the float conversion
-- ===================================================================

/-- The capture class `[\d.,]`. -/
def capNumCh (c : Char) : Bool := isDigitCh c || c = '.' || c = ','

/-- One attempt of `CAPITAL_RE = Capital[.:]\s*([\d.,]+)\s*Euros` at offset
`p`.  The greedy capture is deterministic: its class contains neither
whitespace nor `E`, so giving characters back cannot make `\s*Euros`
match. -/
def capitalTryAt (cs : List Char) (p : Nat) : Option (List Char) :=
  if occursAtL cs "Capital".data p then
    match cs.get? (p + 7) with
    | some c =>
        if decide (c = '.') || decide (c = ':') then
          match (cs.drop (skipWsAt cs (p + 8))).takeWhile capNumCh with
          | [] => none
          | d :: ds =>
              if occursAtL cs "Euros".data
                  (skipWsAt cs (skipWsAt cs (p + 8) + (d :: ds).length)) then
                some (d :: ds)
              else none
        else none
    | none => none
  else none

/-- `CAPITAL_RE.search(body)` (line 353). -/
def capitalSearch (body : List Char) : Option (List Char) :=
  scanOption (capitalTryAt body) 0 (body.length + 1)

def natOfDigits (ds : List Char) : Nat :=
  ds.foldl (fun n c => n * 10 + (c.toNat - '0'.toNat)) 0

/-- Model of Python `float()` on the digits-and-periods strings that the
capital converter produces: defined (no exception) iff the string has at
most one period, at least one digit and nothing except digits and periods; the
value is the exact decimal rational. -/
def pyFloatDigitsDots (t : List Char) : Option ℚ :=
  if (t.filter fun c => decide (c = '.')).length ≤ 1 ∧
      t.any isDigitCh = true ∧
      t.all (fun c => isDigitCh c || decide (c = '.')) = true then
    some (mkRat
      (natOfDigits (t.takeWhile fun c => !decide (c = '.')) *
          10 ^ (t.drop ((t.takeWhile fun c => !decide (c = '.')).length + 1)).length +
        natOfDigits (t.drop ((t.takeWhile fun c => !decide (c = '.')).length + 1)))
      (10 ^ (t.drop ((t.takeWhile fun c => !decide (c = '.')).length + 1)).length))
  else none

/-- `m.group(1).replace(".", "").replace(",", ".")` (line 356). -/
def capTransform (cap : List Char) : List Char :=
  (cap.filter fun c => !decide (c = '.')).map fun c => if c = ',' then '.' else c

/-- Lines 353-358: convert the first capital capture; a conversion failure
leaves the field unset. -/
def extractCapital (body : List Char) : Option ℚ :=
  match capitalSearch body with
  | none => none
  | some cap => pyFloatDigitsDots (capTransform cap)

/-- The printed convention, by parts: digit groups joined by periods as
thousands separators. -/
def joinDots : List (List Char) → List Char
  | [] => []
  | [g] => g
  | g :: gs => g ++ '.' :: joinDots gs

/-- The optional decimal part, comma-prefixed. -/
def decSuffix : Option (List Char) → List Char
  | none => []
  | some d => ',' :: d

/-- The optional decimal part after comma-to-period conversion. -/
def dotSuffix : Option (List Char) → List Char
  | none => []
  | some d => '.' :: d

/-- The printed convention: integer groups, then an optional comma and the
decimal digits. -/
def numPrinted (gs : List (List Char)) (ds : Option (List Char)) : List Char :=
  joinDots gs ++ decSuffix ds

/-- The decimal number such a printed numeral denotes. -/
def numValue (gs : List (List Char)) (ds : Option (List Char)) : ℚ :=
  mkRat (natOfDigits gs.join * 10 ^ (ds.getD []).length + natOfDigits (ds.getD []))
    (10 ^ (ds.getD []).length)

theorem digit_ne_dot {c : Char} (h : isDigitCh c = true) : ¬ c = '.' := by
  intro he
  rw [he] at h
  exact absurd h (by decide)

theorem digit_ne_comma {c : Char} (h : isDigitCh c = true) : ¬ c = ',' := by
  intro he
  rw [he] at h
  exact absurd h (by decide)

theorem takeWhile_all {p : Char → Bool} {l : List Char}
    (h : ∀ c ∈ l, p c = true) : l.takeWhile p = l := by
  induction l with
  | nil => rfl
  | cons a t ih =>
      simp [List.takeWhile_cons, h a (by simp), ih fun c hc => h c (by simp [hc])]

theorem takeWhile_append_all {p : Char → Bool} {l1 l2 : List Char}
    (h : ∀ c ∈ l1, p c = true) :
    (l1 ++ l2).takeWhile p = l1 ++ l2.takeWhile p := by
  induction l1 with
  | nil => rfl
  | cons a t ih =>
      simp [List.cons_append, List.takeWhile_cons, h a (by simp),
        ih fun c hc => h c (by simp [hc])]

theorem map_id_of {f : Char → Char} {l : List Char}
    (h : ∀ c ∈ l, f c = c) : l.map f = l := by
  induction l with
  | nil => rfl
  | cons a t ih =>
      simp only [List.map_cons, h a (by simp)]
      rw [ih fun c hc => h c (by simp [hc])]

theorem filter_digits_self {l : List Char} (h : ∀ c ∈ l, isDigitCh c = true) :
    l.filter (fun c => !decide (c = '.')) = l := by
  apply List.filter_eq_self.mpr
  intro c hc
  simpa using digit_ne_dot (h c hc)

theorem filter_ne_dot_joinDots {gs : List (List Char)}
    (h : ∀ g ∈ gs, ∀ c ∈ g, isDigitCh c = true) :
    (joinDots gs).filter (fun c => !decide (c = '.')) = gs.join := by
  induction gs with
  | nil => rfl
  | cons g gs ih =>
      have hg := filter_digits_self (h g (by simp))
      cases gs with
      | nil => simpa [joinDots] using hg
      | cons g2 gs2 =>
          show (g ++ '.' :: joinDots (g2 :: gs2)).filter _ = _
          rw [List.filter_append, hg, List.filter_cons,
            if_neg (by simp), ih fun g' hg' => h g' (by simp [hg'])]
          simp [List.join]

theorem mem_join_digits {gs : List (List Char)}
    (hgd : ∀ g ∈ gs, ∀ c ∈ g, isDigitCh c = true) :
    ∀ c ∈ gs.join, isDigitCh c = true := by
  intro c hc
  obtain ⟨g, hg, hcg⟩ := List.mem_join.mp hc
  exact hgd g hg c hcg

/-- C8: for every body whose first `Capital ... Euros` capture is written in
the printed convention (period-separated digit groups, optional comma and
decimal digits), the extracted capital is exactly the denoted decimal
rational; and whenever the numeric conversion fails, the field is left
unset. -/
theorem c8_capital_conversion (body : List Char) (gs : List (List Char))
    (ds : Option (List Char))
    (hcap : capitalSearch body = some (numPrinted gs ds))
    (hgs : gs ≠ [])
    (hgne : ∀ g ∈ gs, g ≠ [])
    (hgd : ∀ g ∈ gs, ∀ c ∈ g, isDigitCh c = true)
    (hhead : ∀ g, gs.head? = some g → g.length ≤ 3)
    (htail : ∀ g ∈ gs.tail, g.length = 3)
    (hds : ∀ d, ds = some d → d ≠ [] ∧ ∀ c ∈ d, isDigitCh c = true) :
    extractCapital body = some (numValue gs ds) ∧
    (∀ body2 cap, capitalSearch body2 = some cap →
      pyFloatDigitsDots (capTransform cap) = none → extractCapital body2 = none) := by
  have hJd : ∀ c ∈ gs.join, isDigitCh c = true := mem_join_digits hgd
  have hJne : gs.join ≠ [] := by
    cases gs with
    | nil => exact absurd rfl hgs
    | cons g gs2 =>
        have hg := hgne g (by simp)
        cases g with
        | nil => exact absurd rfl hg
        | cons a t => simp [List.join]
  refine ⟨?_, ?_⟩
  · rw [extractCapital, hcap]
    show pyFloatDigitsDots (capTransform (numPrinted gs ds)) = some (numValue gs ds)
    have hjoin : capTransform (numPrinted gs ds) = gs.join ++ dotSuffix ds := by
      rw [capTransform, numPrinted, List.filter_append, filter_ne_dot_joinDots hgd,
        List.map_append]
      have hm1 : (gs.join.map fun c => if c = ',' then '.' else c) = gs.join :=
        map_id_of fun c hc => by
          rw [if_neg (digit_ne_comma (hJd c hc))]
      rw [hm1]
      cases ds with
      | none => simp [decSuffix, dotSuffix]
      | some d =>
          obtain ⟨hdne, hdd⟩ := hds d rfl
          have hfd : (',' :: d).filter (fun c => !decide (c = '.')) = ',' :: d := by
            rw [List.filter_cons, if_pos (by simp)]
            rw [filter_digits_self hdd]
          have hmd : ((',' :: d).map fun c => if c = ',' then '.' else c)
              = '.' :: d := by
            simp only [List.map_cons]
            rw [map_id_of fun c hc => by
              rw [if_neg (digit_ne_comma (hdd c hc))]]
            simp
          rw [decSuffix, hfd, hmd, dotSuffix]
    rw [hjoin]
    cases ds with
    | none =>
        rw [dotSuffix, List.append_nil]
        have hip : gs.join.takeWhile (fun c => !decide (c = '.')) = gs.join :=
          takeWhile_all fun c hc => by simpa using digit_ne_dot (hJd c hc)
        have hfp : gs.join.drop (gs.join.length + 1) = [] :=
          List.drop_eq_nil_of_le (by omega)
        rw [pyFloatDigitsDots, if_pos ?_]
        · rw [hip, hfp]
          simp only [List.length_nil, pow_zero]
          rw [numValue]
          simp [natOfDigits]
        · refine ⟨?_, ?_, ?_⟩
          · rw [List.length_eq_zero.mpr (List.filter_eq_nil.mpr
              fun c hc => by simpa using digit_ne_dot (hJd c hc))]
            omega
          · rw [List.any_eq_true]
            obtain ⟨c, hc⟩ := List.exists_mem_of_ne_nil _ hJne
            exact ⟨c, hc, hJd c hc⟩
          · rw [List.all_eq_true]
            intro c hc
            simp [hJd c hc]
    | some d =>
        obtain ⟨hdne, hdd⟩ := hds d rfl
        rw [dotSuffix]
        have hip : (gs.join ++ '.' :: d).takeWhile (fun c => !decide (c = '.'))
            = gs.join := by
          rw [takeWhile_append_all fun c hc => by simpa using digit_ne_dot (hJd c hc)]
          simp [List.takeWhile_cons]
        have hfp : (gs.join ++ '.' :: d).drop (gs.join.length + 1) = d := by
          have := @List.drop_append Char (gs.join) ('.' :: d) 1
          simpa using this
        rw [pyFloatDigitsDots, if_pos ?_]
        · rw [hip, hfp]
          rw [numValue]
          rfl
        · refine ⟨?_, ?_, ?_⟩
          · rw [List.filter_append, List.filter_cons]
            rw [List.filter_eq_nil.mpr fun c hc => by
              simpa using digit_ne_dot (hJd c hc)]
            rw [List.filter_eq_nil.mpr fun c hc => by
              simpa using digit_ne_dot (hdd c hc)]
            simp
          · rw [List.any_eq_true]
            obtain ⟨c, hc⟩ := List.exists_mem_of_ne_nil _ hJne
            exact ⟨c, by simp [hc], hJd c hc⟩
          · rw [List.all_eq_true]
            intro c hc
            rcases List.mem_append.mp hc with h1 | h1
            · simp [hJd c h1]
            · rcases List.mem_cons.mp h1 with rfl | h2
              · simp
              · simp [hdd c h2]
  · intro body2 cap hc hf
    rw [extractCapital, hc]
    show pyFloatDigitsDots (capTransform cap) = none
    exact hf

/-- Witness for `c8_capital_conversion` at the specification's own example:
`"Capital: 3.012,50 Euros"` yields `3012.50` (the rational
`mkRat 6025 2`). -/
theorem c8_capital_conversion_witness :
    capitalSearch ". Capital: 3.012,50 Euros.".data
      = some (numPrinted [['3'], ['0', '1', '2']] (some ['5', '0'])) ∧
    extractCapital ". Capital: 3.012,50 Euros.".data = some (mkRat 6025 2) := by
  have h := c8_capital_conversion ". Capital: 3.012,50 Euros.".data
    [['3'], ['0', '1', '2']] (some ['5', '0'])
    (by decide) (by decide) (by decide) (by decide) (by decide) (by decide)
    (fun d hd => by
      injection hd with h
      subst h
      exact ⟨by decide, by decide⟩)
  refine ⟨by decide, ?_⟩
  rw [h.1]
  decide

-- ===================================================================
-- Document pipeline: cleaner, filename grammar, per-entry loop
-- (needed for C3's zero-record case, C9 and C10)
-- ===================================================================

/-- `_SKIP_LINES` (lines 173-177). -/
def _SKIP_LINES : List String :=
  ["SECCIÓN PRIMERA", "Empresarios", "Actos inscritos",
   "SECCIÓN SEGUNDA", "Anuncios y avisos legales",
   "Otros actos publicados en el Registro Mercantil"]

/-- `PROVINCIAS` (lines 43-57). -/
def PROVINCIAS : List String :=
  ["ALBACETE", "ALICANTE", "ALICANTE/ALACANT", "ALMERIA", "ALMERÍA",
   "ARABA/ÁLAVA", "ASTURIAS", "AVILA", "ÁVILA", "BADAJOZ",
   "BARCELONA", "BIZKAIA", "BURGOS", "CACERES", "CÁCERES",
   "CADIZ", "CÁDIZ", "CANTABRIA", "CASTELLON", "CASTELLÓN", "CASTELLÓN/CASTELLÓ",
   "CIUDAD REAL", "CORDOBA", "CÓRDOBA", "A CORUÑA", "CUENCA",
   "GIPUZKOA", "GIRONA", "GRANADA", "GUADALAJARA", "HUELVA",
   "HUESCA", "ILLES BALEARS", "JAEN", "JAÉN", "LEON", "LEÓN",
   "LLEIDA", "LUGO", "MADRID", "MALAGA", "MÁLAGA", "MELILLA",
   "MURCIA", "NAVARRA", "OURENSE", "PALENCIA", "LAS PALMAS",
   "PONTEVEDRA", "LA RIOJA", "SALAMANCA", "SEGOVIA", "SEVILLA",
   "SORIA", "TARRAGONA", "SANTA CRUZ DE TENERIFE", "TERUEL",
   "TOLEDO", "VALENCIA", "VALENCIA/VALÈNCIA", "VALLADOLID",
   "ZAMORA", "ZARAGOZA", "CEUTA"]

/-- `COD_PROVINCIA` (lines 59-74). -/
def COD_PROVINCIA : List (String × String) :=
  [("01", "ARABA/ÁLAVA"), ("02", "ALBACETE"), ("03", "ALICANTE"),
   ("04", "ALMERÍA"), ("05", "ÁVILA"), ("06", "BADAJOZ"),
   ("07", "ILLES BALEARS"), ("08", "BARCELONA"), ("09", "BURGOS"),
   ("10", "CÁCERES"), ("11", "CÁDIZ"), ("12", "CASTELLÓN"),
   ("13", "CIUDAD REAL"), ("14", "CÓRDOBA"), ("15", "A CORUÑA"),
   ("16", "CUENCA"), ("17", "GIRONA"), ("18", "GRANADA"),
   ("19", "GUADALAJARA"), ("20", "GIPUZKOA"), ("21", "HUELVA"),
   ("22", "HUESCA"), ("23", "JAÉN"), ("24", "LEÓN"), ("25", "LLEIDA"),
   ("26", "LA RIOJA"), ("27", "LUGO"), ("28", "MADRID"), ("29", "MÁLAGA"),
   ("30", "MURCIA"), ("31", "NAVARRA"), ("32", "OURENSE"),
   ("33", "ASTURIAS"), ("34", "PALENCIA"), ("35", "LAS PALMAS"),
   ("36", "PONTEVEDRA"), ("37", "SALAMANCA"),
   ("38", "SANTA CRUZ DE TENERIFE"), ("39", "CANTABRIA"), ("40", "SEGOVIA"),
   ("41", "SEVILLA"), ("42", "SORIA"), ("43", "TARRAGONA"), ("44", "TERUEL"),
   ("45", "TOLEDO"), ("46", "VALENCIA"), ("47", "VALLADOLID"),
   ("48", "BIZKAIA"), ("49", "ZAMORA"), ("50", "ZARAGOZA"),
   ("51", "CEUTA"), ("52", "MELILLA"),
   ("99", "REGISTROS MERCANTILES CENTRALES")]

/-- The footer-code line `^[\d-]+[A-Z]-EMROB$` (line 189), matched in full:
the split before the single capital letter is unique because a capital
belongs neither to `[\d-]` nor to the literal tail. -/
def emrobLine (s : List Char) : Bool :=
  decide (8 ≤ s.length) &&
  decide (s.drop (s.length - 6) = "-EMROB".data) &&
  (match s.get? (s.length - 7) with
   | some c => 'A' ≤ c && c ≤ 'Z'
   | none => false) &&
  (s.take (s.length - 7)).all (fun c => isDigitCh c || c = '-')

/-- The per-line drop test of `_clean` (lines 186-193), applied to the
stripped line. -/
def cleanDrop (s : List Char) : Bool :=
  startsWithL s "BOLETÍN OFICIAL DEL REGISTRO".data ||
  (startsWithL s "Núm.".data && containsSub s "Pág.".data) ||
  emrobLine s ||
  decide (s = ":evc".data) ||
  startsWithL s "http://www.boe.es".data ||
  containsSub s "D.L.: M-5188".data ||
  _SKIP_LINES.contains ⟨s⟩

/-- Embedding of `_clean` (lines 183-195): drop noise lines, keep the rest
verbatim, re-join with newlines. -/
def _clean (raw : List Char) : List Char :=
  List.intercalate ['\n']
    ((splitOnCh '\n' raw).filter fun line => !cleanDrop (pyStrip line))

/-- `re.match(r'BORME-([A-Z])-(\d{4})-(\d+)-(\d+)', fname)` (line 245): a
prefix match; returns (section letter, year, issue number, region code). -/
def matchBormeFilename (fname : String) : Option (String × Nat × Nat × String) :=
  if startsWithL fname.data "BORME-".data then
    match fname.data.get? 6, fname.data.get? 7 with
    | some c6, some c7 =>
        if ('A' ≤ c6 && c6 ≤ 'Z') && decide (c7 = '-') &&
            digitsExactly fname.data 8 4 &&
            decide (fname.data.get? 12 = some '-') then
          match (fname.data.drop 13).takeWhile isDigitCh with
          | [] => none
          | d :: ds =>
              if fname.data.get? (13 + (d :: ds).length) = some '-' then
                match (fname.data.drop (13 + (d :: ds).length + 1)).takeWhile isDigitCh with
                | [] => none
                | e :: es =>
                    some (⟨[c6]⟩, natOfDigits ((fname.data.drop 8).take 4),
                      natOfDigits (d :: ds), ⟨e :: es⟩)
              else none
        else none
    | _, _ => none
  else none

/-- `str.zfill(2)` on the digit strings of the storage path. -/
def zfill2 (s : List Char) : List Char :=
  if s.length < 2 then List.replicate (2 - s.length) '0' ++ s else s

/-- Python `str.isdigit` over the modeled alphabet. -/
def isDigitStr (s : List Char) : Bool :=
  decide (s ≠ []) && s.all isDigitCh

/-- The date scan over the storage-path parts (lines 256-265): at the first
four-digit part between 2000 and 2030, build `year-month-day` from it and
the next two parts (keeping the default when fewer than two follow), then
stop. -/
def fechaScan (dflt : List Char) : List (List Char) → List Char
  | [] => dflt
  | p :: rest =>
      if isDigitStr p && decide (p.length = 4) &&
          decide (2000 ≤ natOfDigits p) && decide (natOfDigits p ≤ 2030) then
        match rest with
        | q :: r :: _ => p ++ '-' :: (zfill2 q ++ '-' :: zfill2 r)
        | _ => dflt
      else fechaScan dflt rest

/-- `fecha_borme` (lines 257-265): default `f"{year}-01-01"`. -/
def fechaFromParts (parts : List String) (year : Nat) : String :=
  ⟨fechaScan ((Nat.repr year).data ++ "-01-01".data) (parts.map String.data)⟩

/-- A document as the parser sees it: the storage path string, its parts,
the base filename, and the outcome of the external text-recovery step
(`pdfplumber.open` plus page extraction), `Except.error` when that step
raises. -/
structure BormeDoc where
  path : String
  pathParts : List String
  fname : String
  text : Except Unit String

/-- `re.sub(r'\s\x7b2,\x7d', ' ', block)`: each maximal whitespace run of two
or more characters becomes one space; single whitespace characters stay. -/
def collapseRuns : Nat → List Char → List Char
  | 0, _ => []
  | fuel + 1, [] => []
  | fuel + 1, c :: t =>
      if isWsCh c then
        match t with
        | d :: _ =>
            if isWsCh d then ' ' :: collapseRuns fuel (t.dropWhile isWsCh)
            else c :: collapseRuns fuel t
        | [] => [c]
      else c :: collapseRuns fuel t

/-- Lines 287-288: slice the entry span, turn newlines into spaces, collapse
whitespace runs, strip. -/
def flattenBlock (text : List Char) (a b : Nat) : List Char :=
  pyStrip (collapseRuns ((b - a) + 1)
    (((text.drop a).take (b - a)).map fun c => if c = '\n' then ' ' else c))

/-- The jurisdiction tracker (lines 312-314): the last line of the gap
before the marker that equals a province name wins. -/
def provinciaUpdate (text : List Char) (a b : Nat) (cur : String) : String :=
  (splitOnCh '\n' ((text.drop a).take (b - a))).foldl
    (fun acc line =>
      if PROVINCIAS.contains ⟨pyStrip line⟩ then ⟨pyStrip line⟩ else acc) cur

/-- `COMIENZO_RE = Comienzo de operaciones[.:]\s*([\d.]+)` attempted at
offset `p` (greedy nonempty digits-and-periods run). -/
def comienzoTryAt (cs : List Char) (p : Nat) : Option (List Char) :=
  if occursAtL cs "Comienzo de operaciones".data p then
    match cs.get? (p + 23) with
    | some c =>
        if decide (c = '.') || decide (c = ':') then
          match (cs.drop (skipWsAt cs (p + 24))).takeWhile
              (fun c => isDigitCh c || c = '.') with
          | [] => none
          | d :: ds => some (d :: ds)
        else none
    | none => none
  else none

def comienzoSearch (body : List Char) : Option (List Char) :=
  scanOption (comienzoTryAt body) 0 (body.length + 1)

/-- `"|".join(actos)` (line 364). -/
def joinBar (l : List String) : String :=
  ⟨List.intercalate ['|'] (l.map String.data)⟩

/-- The document-level constants of one parse. -/
structure DocCtx where
  fecha : String
  numero : Nat
  codProv : String
  tipo : String
  fname : String

/-- The company row built for one entry (lines 320-372): base fields, the
Constitución sub-fields, domicile (primary anchor, else the
change-of-domicile anchor), capital, the act list, then the all-or-nothing
registry block. -/
def buildEmpresaRow (dc : DocCtx) (entryNum empresa : String)
    (empresaNorm : String) (prov : String) (body : List Char) : EmpresaRow :=
  applyDatosReg
    { fecha_borme := dc.fecha, num_borme := dc.numero, num_entrada := entryNum,
      empresa := empresa, empresa_norm := empresaNorm, provincia := prov,
      cod_provincia := dc.codProv, tipo_borme := dc.tipo,
      pdf_filename := dc.fname,
      fecha_constitucion :=
        if constitucionDetected body then
          (comienzoSearch body).map fun v => (⟨v⟩ : String)
        else none,
      objeto_social :=
        if constitucionDetected body then
          (objetoSearch body).map fun o => (⟨(pyStrip o).take 500⟩ : String)
        else none,
      domicilio :=
        match domicilioSearch body with
        | some m => some ⟨(pyStrip m).take 300⟩
        | none =>
            if containsSub body "Cambio de domicilio social.".data then
              (cambioDomicilioSearch body).map fun o =>
                (⟨(pyStrip o).take 300⟩ : String)
            else none,
      capital_euros := extractCapital body,
      actos := joinBar (actosOf body),
      hoja_registral := none, tomo := none, inscripcion := none,
      fecha_inscripcion := none }
    body

/-- One entry of the loop (lines 282-407): flatten the block, cut name from
body, normalize, build the company row and the cargo rows. -/
def buildEntry (dc : DocCtx) (text : List Char) (num : List Char) (a b : Nat)
    (prov : String) : EmpresaRow × List CargoRow :=
  (buildEmpresaRow dc ⟨num⟩ ⟨empresaOf (flattenBlock text a b)⟩
      (_normalize_empresa ⟨empresaOf (flattenBlock text a b)⟩) prov
      (bodyOf (flattenBlock text a b)),
    cargosOfBody
      ⟨dc.fecha, ⟨num⟩, ⟨empresaOf (flattenBlock text a b)⟩,
        _normalize_empresa ⟨empresaOf (flattenBlock text a b)⟩, prov,
        ((buildEmpresaRow dc ⟨num⟩ ⟨empresaOf (flattenBlock text a b)⟩
          (_normalize_empresa ⟨empresaOf (flattenBlock text a b)⟩) prov
          (bodyOf (flattenBlock text a b))).hoja_registral).getD "",
        dc.fname⟩
      (bodyOf (flattenBlock text a b)))

/-- The entry loop (lines 282-407), threading the previous marker start
(for the jurisdiction gap) and the current province. -/
def entryLoop (dc : DocCtx) (text : List Char) :
    Nat → String → List MMatch → List EmpresaRow × List CargoRow
  | _, _, [] => ([], [])
  | prevStart, prov, m :: rest =>
      ((buildEntry dc text m.num m.mstop
          (match rest with | next :: _ => next.mstart | [] => text.length)
          (provinciaUpdate text prevStart m.mstart prov)).1 ::
        (entryLoop dc text m.mstart
          (provinciaUpdate text prevStart m.mstart prov) rest).1,
       (buildEntry dc text m.num m.mstop
          (match rest with | next :: _ => next.mstart | [] => text.length)
          (provinciaUpdate text prevStart m.mstart prov)).2 ++
        (entryLoop dc text m.mstart
          (provinciaUpdate text prevStart m.mstart prov) rest).2)

/-- The post-recovery part of `parse_single_pdf` (lines 273-409): clean the
text, segment it, and run the entry loop; zero markers give zero records. -/
def parseKernel (d : BormeDoc) (m : String × Nat × Nat × String)
    (raw : String) : List EmpresaRow × List CargoRow :=
  match findMarkers (_clean raw.data) with
  | [] => ([], [])
  | mk :: ms =>
      entryLoop
        ⟨fechaFromParts d.pathParts m.2.1, m.2.2.1, m.2.2.2, m.1, d.fname⟩
        (_clean raw.data) 0
        ((COD_PROVINCIA.find? fun kv => kv.1 = m.2.2.2).map Prod.snd |>.getD "")
        (mk :: ms)

/-- Embedding of `parse_single_pdf` (lines 241-409): filename gate, date
from the path, text recovery (swallowing its failure, lines 267-271),
cleaning, segmentation, and the entry loop.  Total: every failure path is an
explicit early return. -/
def parseSinglePdf (d : BormeDoc) : List EmpresaRow × List CargoRow :=
  match matchBormeFilename d.fname with
  | none => ([], [])
  | some m =>
      match d.text with
      | Except.error _ => ([], [])
      | Except.ok raw => parseKernel d m raw

/-- Embedding of `_process_one` (lines 420-425).  In this embedding
`parseSinglePdf` is a total function — the one modeled failure source, the
text-recovery step, is caught inside it (lines 267-271) and returns empty
lists — so the exception branch of `_process_one` is never taken and the
result flag is always `True`. -/
def _process_one (d : BormeDoc) : List EmpresaRow × List CargoRow × String × Bool :=
  ((parseSinglePdf d).1, (parseSinglePdf d).2, d.path, true)

/-- The mutable state of the result-collection loop (lines 452-475):
collected rows, the done set (as a list, insertion order) and the error
list. -/
structure BatchAcc where
  empresas : List EmpresaRow
  cargos : List CargoRow
  done : List String
  errors : List String
deriving DecidableEq

/-- One iteration of the result-collection loop (lines 467-475): on success
extend the row lists and the done set; on failure record the path in the
error list. -/
def stepBatch (acc : BatchAcc) (r : List EmpresaRow × List CargoRow × String × Bool) :
    BatchAcc :=
  if r.2.2.2 then
    { acc with
      empresas := acc.empresas ++ r.1
      cargos := acc.cargos ++ r.2.1
      done := acc.done ++ [r.2.2.1] }
  else { acc with errors := acc.errors ++ [r.2.2.1] }

def runBatchFold (ds : List BormeDoc) : BatchAcc :=
  ds.foldl (fun acc d => stepBatch acc (_process_one d)) ⟨[], [], [], []⟩

-- ===================================================================
-- C3 (zero-marker case), C9, C10
-- ===================================================================

/-- C3, zero-marker half: when the cleaned text contains no entry marker,
the document yields zero company records and zero officer records, with no
error (the function is total and returns normally). -/
theorem c3_zero_markers_zero_records (d : BormeDoc) (raw : String)
    (h1 : d.text = Except.ok raw)
    (h2 : findMarkers (_clean raw.data) = []) :
    parseSinglePdf d = ([], []) := by
  unfold parseSinglePdf
  cases hm : matchBormeFilename d.fname with
  | none => rfl
  | some m =>
      show (match d.text with
            | Except.error _ => ([], [])
            | Except.ok raw => parseKernel d m raw) = ([], [])
      rw [h1]
      show parseKernel d m raw = ([], [])
      unfold parseKernel
      rw [h2]

/-- Witness for `c3_zero_markers_zero_records`: a cover page with no
markers. -/
theorem c3_zero_markers_zero_records_witness :
    (⟨"x/BORME-A-2023-67-28.pdf", ["x", "BORME-A-2023-67-28.pdf"],
        "BORME-A-2023-67-28.pdf",
        Except.ok "SECCIÓN PRIMERA\nportada sin asientos"⟩ : BormeDoc).text
      = Except.ok "SECCIÓN PRIMERA\nportada sin asientos" ∧
    findMarkers (_clean "SECCIÓN PRIMERA\nportada sin asientos".data) = [] ∧
    parseSinglePdf
      ⟨"x/BORME-A-2023-67-28.pdf", ["x", "BORME-A-2023-67-28.pdf"],
        "BORME-A-2023-67-28.pdf",
        Except.ok "SECCIÓN PRIMERA\nportada sin asientos"⟩ = ([], []) :=
  ⟨rfl, by decide,
    c3_zero_markers_zero_records _ _ rfl (by decide)⟩

/-- C9 counterexample: a document whose text recovery fails yields zero
records, but it is **not** counted as an error — `parse_single_pdf`
swallows the failure (lines 267-271) and returns normally, so
`_process_one` reports success and the batch loop records the document as
done, leaving the error list empty. -/
theorem c9_unreadable_not_counted_as_error_cex :
    parseSinglePdf
      ⟨"borme/2023/04/05/BORME-A-2023-67-28.pdf",
        ["borme", "2023", "04", "05", "BORME-A-2023-67-28.pdf"],
        "BORME-A-2023-67-28.pdf", Except.error ()⟩ = ([], []) ∧
    _process_one
      ⟨"borme/2023/04/05/BORME-A-2023-67-28.pdf",
        ["borme", "2023", "04", "05", "BORME-A-2023-67-28.pdf"],
        "BORME-A-2023-67-28.pdf", Except.error ()⟩
      = ([], [], "borme/2023/04/05/BORME-A-2023-67-28.pdf", true) ∧
    runBatchFold
      [⟨"borme/2023/04/05/BORME-A-2023-67-28.pdf",
        ["borme", "2023", "04", "05", "BORME-A-2023-67-28.pdf"],
        "BORME-A-2023-67-28.pdf", Except.error ()⟩]
      = ⟨[], [], ["borme/2023/04/05/BORME-A-2023-67-28.pdf"], []⟩ ∧
    (runBatchFold
      [⟨"borme/2023/04/05/BORME-A-2023-67-28.pdf",
        ["borme", "2023", "04", "05", "BORME-A-2023-67-28.pdf"],
        "BORME-A-2023-67-28.pdf", Except.error ()⟩]).errors = [] := by
  refine ⟨by decide, by decide, by decide, by decide⟩

/-- C9 (amended): when the text of a document cannot be obtained, parsing
yields zero company and zero officer records and the failure never
propagates past the document (the batch continues); however the document is
recorded as successfully processed — added to the done set, not to the
error list.  Error markers are reserved for exceptions that escape
`parse_single_pdf`, which the text-recovery failure does not. -/
theorem c9_unreadable_amended (d : BormeDoc) (h : d.text = Except.error ()) :
    parseSinglePdf d = ([], []) ∧
    _process_one d = ([], [], d.path, true) ∧
    ∀ acc : BatchAcc, stepBatch acc (_process_one d) =
      { acc with done := acc.done ++ [d.path] } := by
  have hp : parseSinglePdf d = ([], []) := by
    unfold parseSinglePdf
    cases hm : matchBormeFilename d.fname with
    | none => rfl
    | some m =>
        show (match d.text with
              | Except.error _ => ([], [])
              | Except.ok raw => parseKernel d m raw) = ([], [])
        rw [h]
  have hpo : _process_one d = ([], [], d.path, true) := by
    rw [_process_one, hp]
  refine ⟨hp, hpo, ?_⟩
  intro acc
  rw [hpo]
  cases acc
  simp [stepBatch]

/-- Witness for `c9_unreadable_amended` at a concrete unreadable
document. -/
theorem c9_unreadable_amended_witness :
    (⟨"y/BORME-A-2022-10-08.pdf", ["y", "BORME-A-2022-10-08.pdf"],
        "BORME-A-2022-10-08.pdf", Except.error ()⟩ : BormeDoc).text
      = Except.error () ∧
    parseSinglePdf
      ⟨"y/BORME-A-2022-10-08.pdf", ["y", "BORME-A-2022-10-08.pdf"],
        "BORME-A-2022-10-08.pdf", Except.error ()⟩ = ([], []) ∧
    stepBatch ⟨[], [], [], []⟩
      (_process_one
        ⟨"y/BORME-A-2022-10-08.pdf", ["y", "BORME-A-2022-10-08.pdf"],
          "BORME-A-2022-10-08.pdf", Except.error ()⟩)
      = ⟨[], [], ["y/BORME-A-2022-10-08.pdf"], []⟩ := by
  have h := c9_unreadable_amended
    ⟨"y/BORME-A-2022-10-08.pdf", ["y", "BORME-A-2022-10-08.pdf"],
      "BORME-A-2022-10-08.pdf", Except.error ()⟩ rfl
  exact ⟨rfl, h.1, by rw [h.2.2 ⟨[], [], [], []⟩]; decide⟩

/-- C10: a path whose base filename does not match the grammar
`BORME-<letter>-<4-digit year>-<issue>-<region code>` yields two empty
record lists, without error (the function is total) and without the
document text being consulted: the result is the same whatever the text
field holds. -/
theorem c10_filename_gate (d : BormeDoc)
    (h : matchBormeFilename d.fname = none) :
    parseSinglePdf d = ([], []) ∧
    ∀ t, parseSinglePdf { d with text := t } = ([], []) := by
  constructor
  · unfold parseSinglePdf
    rw [h]
  · intro t
    unfold parseSinglePdf
    have he : matchBormeFilename ({ d with text := t } : BormeDoc).fname = none := h
    rw [he]

/-- Witness for `c10_filename_gate`: a two-digit-year filename fails the
grammar; the parse ignores even a marker-laden text. -/
theorem c10_filename_gate_witness :
    matchBormeFilename "BORME-A-23-4-28.pdf" = none ∧
    parseSinglePdf
      ⟨"z/BORME-A-23-4-28.pdf", ["z", "BORME-A-23-4-28.pdf"],
        "BORME-A-23-4-28.pdf", Except.ok "1234- ACME SA. Constitución."⟩
      = ([], []) ∧
    parseSinglePdf
      ⟨"z/BORME-A-23-4-28.pdf", ["z", "BORME-A-23-4-28.pdf"],
        "BORME-A-23-4-28.pdf", Except.error ()⟩
      = ([], []) := by
  have h := c10_filename_gate
    ⟨"z/BORME-A-23-4-28.pdf", ["z", "BORME-A-23-4-28.pdf"],
      "BORME-A-23-4-28.pdf", Except.ok "1234- ACME SA. Constitución."⟩
    (by decide)
  exact ⟨by decide, h.1, h.2 (Except.error ())⟩

end Borme
